import Mathlib

/-!
# scull (chapter3/scull.c): the sparse byte store

A shallow embedding of `scull_find`, `scull_follow`, `scull_read`,
`scull_write` and `scull_trim`, for an LP64 kernel build:
`int` is 32 bits, `long`, `loff_t`, `size_t` and `unsigned long` are 64 bits.

* Integers are mathematical (`Int`, `Nat`); every conversion the C code makes
  is written out (`toInt32`, `toInt64`, `toUInt32`, `toUInt64`).
* The chain `dev->qsets -> next -> next ...` is the list of the Sets reachable
  from the head; a pointer into the chain is a position in that list, `none`
  is `NULL`.  Memory that is no longer reachable from `dev->qsets` is not part
  of the state.
* `kmalloc : Nat → Bool` tells whether the n-th allocation request succeeds;
  the number of requests made so far is threaded through as `nalloc`.
* The user buffer is the list of the bytes that are accessible at the user
  pointer: `copy_from_user` / `copy_to_user` of `count` bytes succeed exactly
  when `count` bytes are accessible.
* A call whose result is `none` has left defined behaviour: a `NULL`
  dereference, an access outside an allocated object, a division by zero.
-/

namespace Scull

/-- One byte of a quantum or of a user buffer. -/
abbrev Byte := Fin 256

/-- Conversion to `int` (32-bit two's complement). -/
def toInt32 (x : Int) : Int := (x + 2 ^ 31) % 2 ^ 32 - 2 ^ 31

/-- Conversion to `long` / `loff_t` / `ssize_t` (64-bit two's complement). -/
def toInt64 (x : Int) : Int := (x + 2 ^ 63) % 2 ^ 64 - 2 ^ 63

/-- The bit pattern of an `int` read as an unsigned 32-bit number. -/
def toUInt32 (x : Int) : Nat := (x % 2 ^ 32).toNat

/-- Conversion to `size_t` / `unsigned long` (64 bits). -/
def toUInt64 (x : Int) : Nat := (x % 2 ^ 64).toNat

/-- Error number `ENOMEM`. -/
def ENOMEM : Int := 12

/-- Error number `EFAULT`. -/
def EFAULT : Int := 14

/-- The global configuration `scull_quantum_size`, `scull_quanta_count`
(both `int`, 1024 in the source). -/
structure Config where
  scull_quantum_size : Int
  scull_quanta_count : Int
  deriving DecidableEq, Repr

/-- The configuration of the source: `SCULL_QUANTUM_SIZE`, `SCULL_QUANTA_COUNT`. -/
def defaultConfig : Config := { scull_quantum_size := 1024, scull_quanta_count := 1024 }

/-- The configuration of the scenarios of the specification: quanta of 4 bytes, 2 per
Set. -/
def smallConfig : Config := { scull_quantum_size := 4, scull_quanta_count := 2 }

/-- The global `scull_qset_size`, as `scull_init` computes it (line 62):
an `int` product. -/
def scull_qset_size (cfg : Config) : Int :=
  toInt32 (cfg.scull_quanta_count * cfg.scull_quantum_size)

/-- A configuration whose values are positive and whose product fits an `int`. -/
def Config.valid (cfg : Config) : Prop :=
  0 < cfg.scull_quantum_size ∧ 0 < cfg.scull_quanta_count ∧
    cfg.scull_quanta_count * cfg.scull_quantum_size < 2 ^ 31

instance (cfg : Config) : Decidable cfg.valid := by
  unfold Config.valid; infer_instance

/-- The `struct scull_qset`: `quanta` is `NULL` (`none`) or an array of slots, each
`NULL` or a quantum; `next` is the following element of the chain list. -/
structure scull_qset where
  quanta : Option (List (Option (List Byte)))
  deriving DecidableEq, Repr

/-- The `struct scull_device`: the chain from `qsets`, and `size` (`unsigned long`). -/
structure scull_device where
  qsets : List scull_qset
  size : Nat
  deriving DecidableEq, Repr

/-- A device after `memset(scull_devices, 0, ...)` in `scull_init`. -/
def emptyDevice : scull_device := { qsets := [], size := 0 }

/-- A freshly allocated `struct scull_qset` after `memset(qset, 0, ...)`. -/
def zeroQset : scull_qset := { quanta := none }

/-- Lines 227-234. `none`: division by zero. The results are `int`s; `/` and `%` of C
truncate towards zero. -/
def scull_find (cfg : Config) (f_pos : Int) : Option (Int × Int × Int) :=
  if scull_qset_size cfg = 0 ∨ cfg.scull_quantum_size = 0 then none
  else
    let qset_idx := toInt32 (Int.tdiv f_pos (scull_qset_size cfg))
    let rest := toInt32 (Int.tmod f_pos (scull_qset_size cfg))
    let quantum_idx := toInt32 (Int.tdiv rest cfg.scull_quantum_size)
    let quantum_pos := toInt32 (Int.tmod rest cfg.scull_quantum_size)
    some (qset_idx, quantum_idx, quantum_pos)

/-- What `scull_follow` leaves: the returned pointer (a chain position, or `NULL`),
the device, and the number of allocation requests made so far. -/
structure FollowResult where
  qset : Option Nat
  dev : scull_device
  nalloc : Nat
  deriving DecidableEq, Repr

/-- The `while (qset_idx--)` loop of `scull_follow` (lines 265-273), with the number
of iterations still to run, the local pointer `qset`, the device and the allocation
counter. In an iteration: `qset->next` is read (`none` when `qset` is `NULL`); when it is
`NULL` a Set is allocated and stored in `qset` AND in `dev->qsets` (line 267), so the
chain from the head becomes that one zeroed Set, or is `NULL` when the allocation
failed; then `qset = qset->next`. -/
def scull_follow_loop (kmalloc : Nat → Bool) :
    Nat → Option Nat → scull_device → Nat → Option FollowResult
  | 0, qset, dev, n => some { qset := qset, dev := dev, nalloc := n }
  | _ + 1, none, _, _ => none
  | k + 1, some i, dev, n =>
    if i + 1 < dev.qsets.length then
      scull_follow_loop kmalloc k (some (i + 1)) dev n
    else if kmalloc n then
      scull_follow_loop kmalloc k none { dev with qsets := [zeroQset] } (n + 1)
    else
      some { qset := none, dev := { dev with qsets := [] }, nalloc := n + 1 }

/-- Lines 254-276. The loop runs while the `int` counter is not zero, counting down:
`qset_idx` times for a non-negative index (a negative one counts down through the
wrap-around of `int`). -/
def scull_follow (kmalloc : Nat → Bool) (n : Nat) (dev : scull_device) (qset_idx : Int) :
    Option FollowResult :=
  match dev.qsets with
  | [] =>
    if kmalloc n then
      scull_follow_loop kmalloc (toUInt32 qset_idx) (some 0)
        { dev with qsets := [zeroQset] } (n + 1)
    else
      some { qset := none, dev := { dev with qsets := [] }, nalloc := n + 1 }
  | _ :: _ => scull_follow_loop kmalloc (toUInt32 qset_idx) (some 0) dev n

/-- What `scull_read` leaves: the return value, the user buffer, `*f_pos`, the device
and the allocation counter. -/
structure ReadResult where
  retval : Int
  buffer : List Byte
  f_pos : Int
  dev : scull_device
  nalloc : Nat
  deriving DecidableEq, Repr

/-- Lines 156-157 and 207-208: `if (count > scull_quantum_size - quantum_pos)
count = scull_quantum_size - quantum_pos;`, the `int` difference converted to
`size_t`. -/
def clampToQuantum (cfg : Config) (quantum_pos : Int) (count : Nat) : Nat :=
  if toUInt64 (toInt32 (cfg.scull_quantum_size - quantum_pos)) < count then
    toUInt64 (toInt32 (cfg.scull_quantum_size - quantum_pos))
  else count

/-- Lines 155-170 of `scull_read`: the clamp to the quantum, `copy_to_user`, the
cursor. -/
def scull_read_copy (cfg : Config) (dev : scull_device) (n : Nat) (quantum : List Byte)
    (buffer : List Byte) (count : Nat) (f_pos : Int) (quantum_pos : Int) :
    Option ReadResult :=
  if quantum_pos < 0 ∨
      quantum.length < quantum_pos.toNat + clampToQuantum cfg quantum_pos count then none
  else if clampToQuantum cfg quantum_pos count ≤ buffer.length then
    some { retval := clampToQuantum cfg quantum_pos count,
           buffer := (quantum.drop quantum_pos.toNat).take (clampToQuantum cfg quantum_pos count)
                       ++ buffer.drop (clampToQuantum cfg quantum_pos count),
           f_pos := toInt64 (f_pos + clampToQuantum cfg quantum_pos count),
           dev := dev, nalloc := n }
  else
    some { retval := -EFAULT,
           buffer := (quantum.drop quantum_pos.toNat).take buffer.length,
           f_pos := f_pos, dev := dev, nalloc := n }

/-- Lines 150-170 of `scull_read`: what follows the call of `scull_follow`. -/
def scull_read_qset (cfg : Config) (fr : FollowResult) (buffer : List Byte) (count : Nat)
    (f_pos : Int) (quantum_idx quantum_pos : Int) : Option ReadResult :=
  match fr.qset with
  | none =>
    some { retval := 0, buffer := buffer, f_pos := f_pos, dev := fr.dev, nalloc := fr.nalloc }
  | some i =>
    match fr.dev.qsets.get? i with
    | none => none
    | some q =>
      match q.quanta with
      | none =>
        some { retval := 0, buffer := buffer, f_pos := f_pos, dev := fr.dev,
               nalloc := fr.nalloc }
      | some quanta =>
        if quantum_idx < 0 then none
        else
          match quanta.get? quantum_idx.toNat with
          | none => none
          | some none =>
            some { retval := 0, buffer := buffer, f_pos := f_pos, dev := fr.dev,
                   nalloc := fr.nalloc }
          | some (some quantum) =>
            scull_read_copy cfg fr.dev fr.nalloc quantum buffer count f_pos quantum_pos

/-- Lines 143-144 of `scull_read`: `if (*f_pos + count > dev->size) count = dev->size -
*f_pos;`, in `unsigned long` arithmetic; reached with `*f_pos < dev->size`. -/
def clampToSize (dev : scull_device) (count : Nat) (f_pos : Int) : Nat :=
  if dev.size < (toUInt64 f_pos + count) % 2 ^ 64 then dev.size - toUInt64 f_pos
  else count

/-- Lines 134-171. `buffer` holds the bytes accessible at the user pointer. -/
def scull_read (cfg : Config) (kmalloc : Nat → Bool) (n : Nat) (dev : scull_device)
    (buffer : List Byte) (count : Nat) (f_pos : Int) : Option ReadResult :=
  if dev.size ≤ toUInt64 f_pos then
    some { retval := 0, buffer := buffer, f_pos := f_pos, dev := dev, nalloc := n }
  else
    match scull_find cfg f_pos with
    | none => none
    | some (qset_idx, quantum_idx, quantum_pos) =>
      match scull_follow kmalloc n dev qset_idx with
      | none => none
      | some fr =>
        scull_read_qset cfg fr buffer (clampToSize dev count f_pos) f_pos quantum_idx
          quantum_pos

/-- What `scull_write` leaves: the return value, `*f_pos`, the device and the
allocation counter. -/
structure WriteResult where
  retval : Int
  f_pos : Int
  dev : scull_device
  nalloc : Nat
  deriving DecidableEq, Repr

/-- The device with the block array of the Set at chain position `i` replaced. -/
def setQuanta (dev : scull_device) (i : Nat) (quanta : List (Option (List Byte))) :
    scull_device :=
  { dev with qsets := dev.qsets.set i { quanta := some quanta } }

/-- Lines 206-224 of `scull_write`: the clamp to the quantum, `copy_from_user` into
the quantum in slot `quantum_idx` of the block array `quanta` of the Set at chain
position `i`, the cursor and `size`. When the copy stops short, the accessible bytes
have been stored. -/
def scull_write_copy (cfg : Config) (dev : scull_device) (i : Nat)
    (quanta : List (Option (List Byte))) (quantum : List Byte) (n : Nat)
    (buffer : List Byte) (count : Nat) (f_pos : Int) (quantum_idx quantum_pos : Int) :
    Option WriteResult :=
  if quantum_pos < 0 ∨
      quantum.length < quantum_pos.toNat + clampToQuantum cfg quantum_pos count then none
  else if clampToQuantum cfg quantum_pos count ≤ buffer.length then
    some { retval := clampToQuantum cfg quantum_pos count,
           f_pos := toInt64 (f_pos + clampToQuantum cfg quantum_pos count),
           dev :=
             { qsets := (setQuanta dev i (quanta.set quantum_idx.toNat (some
                  (quantum.take quantum_pos.toNat
                    ++ buffer.take (clampToQuantum cfg quantum_pos count)
                    ++ quantum.drop (quantum_pos.toNat
                        + clampToQuantum cfg quantum_pos count))))).qsets,
               size :=
                 if dev.size < toUInt64 (toInt64 (f_pos + clampToQuantum cfg quantum_pos count))
                 then toUInt64 (toInt64 (f_pos + clampToQuantum cfg quantum_pos count))
                 else dev.size },
           nalloc := n }
  else
    some { retval := -EFAULT, f_pos := f_pos,
           dev := setQuanta dev i (quanta.set quantum_idx.toNat (some
                  (quantum.take quantum_pos.toNat ++ buffer
                    ++ quantum.drop (quantum_pos.toNat + buffer.length)))),
           nalloc := n }

/-- Lines 198-224 of `scull_write`: the quantum in slot `quantum_idx` of the block
array `quanta` is allocated and zeroed when the slot is `NULL`. -/
def scull_write_quantum (cfg : Config) (kmalloc : Nat → Bool) (dev : scull_device) (i : Nat)
    (quanta : List (Option (List Byte))) (n : Nat)
    (buffer : List Byte) (count : Nat) (f_pos : Int) (quantum_idx quantum_pos : Int) :
    Option WriteResult :=
  if quantum_idx < 0 then none
  else
    match quanta.get? quantum_idx.toNat with
    | none => none
    | some (some quantum) =>
      scull_write_copy cfg dev i quanta quantum n buffer count f_pos quantum_idx quantum_pos
    | some none =>
      if kmalloc n then
        scull_write_copy cfg dev i quanta (List.replicate cfg.scull_quantum_size.toNat 0)
          (n + 1) buffer count f_pos quantum_idx quantum_pos
      else
        some { retval := -ENOMEM, f_pos := f_pos, dev := setQuanta dev i quanta,
               nalloc := n + 1 }

/-- Lines 184-224 of `scull_write`: what follows the call of `scull_follow`; the
block array is allocated and zeroed when it is `NULL`. -/
def scull_write_qset (cfg : Config) (kmalloc : Nat → Bool) (fr : FollowResult)
    (buffer : List Byte) (count : Nat) (f_pos : Int) (quantum_idx quantum_pos : Int) :
    Option WriteResult :=
  match fr.qset with
  | none => some { retval := -ENOMEM, f_pos := f_pos, dev := fr.dev, nalloc := fr.nalloc }
  | some i =>
    match fr.dev.qsets.get? i with
    | none => none
    | some q =>
      match q.quanta with
      | some quanta =>
        scull_write_quantum cfg kmalloc fr.dev i quanta fr.nalloc buffer count f_pos
          quantum_idx quantum_pos
      | none =>
        if kmalloc fr.nalloc then
          scull_write_quantum cfg kmalloc fr.dev i
            (List.replicate cfg.scull_quanta_count.toNat none) (fr.nalloc + 1) buffer count
            f_pos quantum_idx quantum_pos
        else
          some { retval := -ENOMEM, f_pos := f_pos, dev := fr.dev, nalloc := fr.nalloc + 1 }

/-- Lines 173-225. `buffer` holds the bytes accessible at the user pointer. -/
def scull_write (cfg : Config) (kmalloc : Nat → Bool) (n : Nat) (dev : scull_device)
    (buffer : List Byte) (count : Nat) (f_pos : Int) : Option WriteResult :=
  match scull_find cfg f_pos with
  | none => none
  | some (qset_idx, quantum_idx, quantum_pos) =>
    match scull_follow kmalloc n dev qset_idx with
    | none => none
    | some fr => scull_write_qset cfg kmalloc fr buffer count f_pos quantum_idx quantum_pos

/-- What `scull_trim` leaves: the device, and the number of objects it has released
(the calls of `kfree` with a pointer that is not `NULL`). -/
structure TrimResult where
  dev : scull_device
  nfree : Nat
  deriving DecidableEq, Repr

/-- Lines 241-246 of `scull_trim`, for one Set: when the block array is present, `kfree`
on the slots `0 .. scull_quanta_count - 1`, then on the array. The result is the number
of objects released; `none` when the array has fewer slots than the loop reads. -/
def scull_trim_quanta (cfg : Config) (q : scull_qset) : Option Nat :=
  match q.quanta with
  | none => some 0
  | some quanta =>
    if quanta.length < cfg.scull_quanta_count.toNat then none
    else some (((quanta.take cfg.scull_quanta_count.toNat).filter Option.isSome).length + 1)

/-- The loop of lines 240-249 of `scull_trim` from the Set `curr_qset`, the head of the
list, on: its quanta and block array are released, `next` is read, the Set is released.
The result is the number of objects released, counted from `nfree`. -/
def scull_trim_loop (cfg : Config) : List scull_qset → Nat → Option Nat
  | [], nfree => some nfree
  | curr_qset :: next_qset, nfree =>
    match scull_trim_quanta cfg curr_qset with
    | none => none
    | some k => scull_trim_loop cfg next_qset (nfree + k + 1)

/-- Lines 236-252: every Set, block array and quantum of the chain is released, then
`size` and `qsets` are zeroed. -/
def scull_trim (cfg : Config) (dev : scull_device) : Option TrimResult :=
  match scull_trim_loop cfg dev.qsets 0 with
  | none => none
  | some nfree => some { dev := { qsets := [], size := 0 }, nfree := nfree }

/-- Every allocation request succeeds. -/
def allocOk : Nat → Bool := fun _ => true

/-- Every allocation request fails. -/
def allocFail : Nat → Bool := fun _ => false

/-- The device of the scenario of the specification: quanta of 4 bytes, 2 per Set,
after "ABCDEF" was written at offset 0. -/
def deviceABCDEF : scull_device :=
  { qsets := [{ quanta := some [some [65, 66, 67, 68], some [69, 70, 0, 0]] }], size := 6 }

/-- A slot of a block array is well formed: `NULL`, or a quantum of
`scull_quantum_size` bytes. -/
def wfSlot (cfg : Config) : Option (List Byte) → Prop
  | none => True
  | some quantum => quantum.length = cfg.scull_quantum_size.toNat

instance (cfg : Config) (slot : Option (List Byte)) : Decidable (wfSlot cfg slot) := by
  cases slot <;> unfold wfSlot <;> infer_instance

/-- A Set is well formed: its block array is `NULL`, or has `scull_quanta_count`
well-formed slots. -/
def wfQset (cfg : Config) (q : scull_qset) : Prop :=
  match q.quanta with
  | none => True
  | some quanta =>
    quanta.length = cfg.scull_quanta_count.toNat ∧ ∀ slot ∈ quanta, wfSlot cfg slot

instance (cfg : Config) (q : scull_qset) : Decidable (wfQset cfg q) := by
  unfold wfQset; cases q.quanta <;> infer_instance

/-- A device is well formed: every Set of the chain is, and `size` is an
`unsigned long`. -/
def wf (cfg : Config) (dev : scull_device) : Prop :=
  (∀ q ∈ dev.qsets, wfQset cfg q) ∧ dev.size < 2 ^ 64

instance (cfg : Config) (dev : scull_device) : Decidable (wf cfg dev) := by
  unfold wf; infer_instance

/-- The quantum that `scull_read` and `scull_write` reach for the indices of
`scull_find`: the Set at chain position `qset_idx`, its block array, the slot
`quantum_idx`. `none` when any of the three is absent. -/
def quantumAt (dev : scull_device) (qset_idx quantum_idx : Int) : Option (List Byte) :=
  if qset_idx < 0 ∨ quantum_idx < 0 then none
  else
    match dev.qsets.get? qset_idx.toNat with
    | none => none
    | some q =>
      match q.quanta with
      | none => none
      | some quanta =>
        match quanta.get? quantum_idx.toNat with
        | some (some quantum) => some quantum
        | _ => none

/-- The device states that calls of `scull_write`, `scull_read` and `scull_trim` reach
from the zeroed device, whatever the allocator and the user buffers do. Offsets are
non-negative `loff_t` values and counts are `size_t` values. -/
inductive Reachable (cfg : Config) : scull_device → Prop
  | init : Reachable cfg emptyDevice
  | write (kmalloc : Nat → Bool) (n : Nat) (dev : scull_device) (buffer : List Byte)
      (count : Nat) (f_pos : Int) (r : WriteResult) :
      Reachable cfg dev → 0 ≤ f_pos → f_pos < 2 ^ 63 → count < 2 ^ 64 →
      scull_write cfg kmalloc n dev buffer count f_pos = some r → Reachable cfg r.dev
  | read (kmalloc : Nat → Bool) (n : Nat) (dev : scull_device) (buffer : List Byte)
      (count : Nat) (f_pos : Int) (r : ReadResult) :
      Reachable cfg dev → 0 ≤ f_pos → f_pos < 2 ^ 63 → count < 2 ^ 64 →
      scull_read cfg kmalloc n dev buffer count f_pos = some r → Reachable cfg r.dev
  | trim (dev : scull_device) (t : TrimResult) :
      Reachable cfg dev → scull_trim cfg dev = some t → Reachable cfg t.dev

/-- The device states that calls of `scull_read`, and calls of `scull_write` that
return an error, reach from the state `dev0`. -/
inductive NoWriteSince (cfg : Config) (dev0 : scull_device) : scull_device → Prop
  | start : NoWriteSince cfg dev0 dev0
  | read (kmalloc : Nat → Bool) (n : Nat) (dev : scull_device) (buffer : List Byte)
      (count : Nat) (f_pos : Int) (r : ReadResult) :
      NoWriteSince cfg dev0 dev →
      scull_read cfg kmalloc n dev buffer count f_pos = some r → NoWriteSince cfg dev0 r.dev
  | failed (kmalloc : Nat → Bool) (n : Nat) (dev : scull_device) (buffer : List Byte)
      (count : Nat) (f_pos : Int) (r : WriteResult) :
      NoWriteSince cfg dev0 dev →
      scull_write cfg kmalloc n dev buffer count f_pos = some r → r.retval < 0 →
      NoWriteSince cfg dev0 r.dev

/-- The block array of a Set once lines 189-196 of `scull_write` are passed: the one
it had, or a new one of `scull_quanta_count` slots, all `NULL`. -/
def quantaOf (cfg : Config) (q : scull_qset) : List (Option (List Byte)) :=
  match q.quanta with
  | some quanta => quanta
  | none => List.replicate cfg.scull_quanta_count.toNat none

/-- The quantum of a slot once lines 198-204 of `scull_write` are passed: the one it
had, or a new one of `scull_quantum_size` zero bytes. -/
def quantumOf (cfg : Config) (slot : Option (List Byte)) : List Byte :=
  match slot with
  | some quantum => quantum
  | none => List.replicate cfg.scull_quantum_size.toNat 0

/-- The quantum after `data` was copied to its position `p`. -/
def storeBytes (quantum : List Byte) (p : Nat) (data : List Byte) : List Byte :=
  quantum.take p ++ data ++ quantum.drop (p + data.length)

/-- The device states reached from the zeroed device by calls of `scull_write` at offsets
that satisfy `P` with allocators that satisfy `A`, by calls of `scull_read` with
allocators that satisfy `A`, and by calls of `scull_trim`. -/
inductive ReachableWith (cfg : Config) (A : (Nat → Bool) → Prop) (P : Int → Prop) :
    scull_device → Prop
  | init : ReachableWith cfg A P emptyDevice
  | write (kmalloc : Nat → Bool) (n : Nat) (dev : scull_device) (buffer : List Byte)
      (count : Nat) (f_pos : Int) (r : WriteResult) :
      ReachableWith cfg A P dev → A kmalloc → P f_pos →
      0 ≤ f_pos → f_pos < 2 ^ 63 → count < 2 ^ 64 →
      scull_write cfg kmalloc n dev buffer count f_pos = some r → ReachableWith cfg A P r.dev
  | read (kmalloc : Nat → Bool) (n : Nat) (dev : scull_device) (buffer : List Byte)
      (count : Nat) (f_pos : Int) (r : ReadResult) :
      ReachableWith cfg A P dev → A kmalloc →
      0 ≤ f_pos → f_pos < 2 ^ 63 → count < 2 ^ 64 →
      scull_read cfg kmalloc n dev buffer count f_pos = some r → ReachableWith cfg A P r.dev
  | trim (dev : scull_device) (t : TrimResult) :
      ReachableWith cfg A P dev → scull_trim cfg dev = some t → ReachableWith cfg A P t.dev

/-- The number of bytes that a call of `scull_write` has stored in a quantum: the bytes
it reports, or, when it returns `-EFAULT`, the accessible bytes of the user buffer. -/
def bytesStored (r : WriteResult) (buffer : List Byte) : Nat :=
  if 0 ≤ r.retval then r.retval.toNat
  else if r.retval = -EFAULT then buffer.length
  else 0

/-- The device states reached from the zeroed device, each with the offsets at which
bytes were stored since the last `scull_trim`; the offsets of the writes have a Set
index below `2 ^ 31`. -/
inductive Written (cfg : Config) : scull_device → (Int → Prop) → Prop
  | init : Written cfg emptyDevice (fun _ => False)
  | write (kmalloc : Nat → Bool) (n : Nat) (dev : scull_device) (W : Int → Prop)
      (buffer : List Byte) (count : Nat) (f_pos : Int) (r : WriteResult) :
      Written cfg dev W →
      f_pos / (cfg.scull_quanta_count * cfg.scull_quantum_size) < 2 ^ 31 →
      0 ≤ f_pos → f_pos < 2 ^ 63 → count < 2 ^ 64 →
      scull_write cfg kmalloc n dev buffer count f_pos = some r →
      Written cfg r.dev (fun x => W x ∨ (f_pos ≤ x ∧ x < f_pos + bytesStored r buffer))
  | read (kmalloc : Nat → Bool) (n : Nat) (dev : scull_device) (W : Int → Prop)
      (buffer : List Byte) (count : Nat) (f_pos : Int) (r : ReadResult) :
      Written cfg dev W → 0 ≤ f_pos → f_pos < 2 ^ 63 → count < 2 ^ 64 →
      scull_read cfg kmalloc n dev buffer count f_pos = some r → Written cfg r.dev W
  | trim (dev : scull_device) (W : Int → Prop) (t : TrimResult) :
      Written cfg dev W → scull_trim cfg dev = some t → Written cfg t.dev (fun _ => False)

/-- Every byte of the device that is not zero is at an offset of `W`: the byte at
position `k` of the quantum in slot `j` of the Set at chain position `i` is the byte at
offset `i * quanta_count * quantum_size + j * quantum_size + k`. -/
def zeroOutside (cfg : Config) (W : Int → Prop) (dev : scull_device) : Prop :=
  ∀ (i : Nat) (q : scull_qset) (quanta : List (Option (List Byte))) (j : Nat)
    (quantum : List Byte) (k : Nat) (v : Byte),
    dev.qsets.get? i = some q → q.quanta = some quanta →
    quanta.get? j = some (some quantum) → quantum.get? k = some v → v ≠ 0 →
    W (i * (cfg.scull_quanta_count * cfg.scull_quantum_size) + j * cfg.scull_quantum_size + k)

/-- The number of quanta allocated in the chain. -/
def blockCount (dev : scull_device) : Nat :=
  (dev.qsets.map (fun q =>
    match q.quanta with
    | none => 0
    | some quanta => (quanta.filter Option.isSome).length)).sum

/-! ## Conversions and address translation -/

theorem toInt32_eq (x : Int) (h1 : -2 ^ 31 ≤ x) (h2 : x < 2 ^ 31) : toInt32 x = x := by
  unfold toInt32; omega

theorem toUInt64_toInt64 (x : Int) (h1 : 0 ≤ x) (h2 : x < 2 ^ 64) :
    (toUInt64 (toInt64 x) : Int) = x := by
  unfold toUInt64 toInt64; omega

theorem toUInt64_eq (x : Int) (h1 : 0 ≤ x) (h2 : x < 2 ^ 64) : (toUInt64 x : Int) = x := by
  unfold toUInt64; omega

theorem toUInt32_eq (x : Int) (h1 : 0 ≤ x) (h2 : x < 2 ^ 32) : toUInt32 x = x.toNat := by
  unfold toUInt32; omega

theorem Config.valid.qset_pos {cfg : Config} (hv : cfg.valid) :
    0 < cfg.scull_quanta_count * cfg.scull_quantum_size :=
  Int.mul_pos hv.2.1 hv.1

theorem Config.valid.quantum_lt {cfg : Config} (hv : cfg.valid) :
    cfg.scull_quantum_size < 2 ^ 31 := by
  obtain ⟨h1, h2, h3⟩ := hv
  nlinarith

theorem scull_qset_size_valid {cfg : Config} (hv : cfg.valid) :
    scull_qset_size cfg = cfg.scull_quanta_count * cfg.scull_quantum_size := by
  have := hv.qset_pos
  exact toInt32_eq _ (by omega) hv.2.2

/-- Under a valid configuration, a non-negative offset is split by Euclidean division;
only the Set index goes through a narrowing conversion that can change it. -/
theorem scull_find_valid {cfg : Config} (hv : cfg.valid) (o : Int) (h0 : 0 ≤ o) :
    scull_find cfg o =
      some (toInt32 (o / (cfg.scull_quanta_count * cfg.scull_quantum_size)),
            o % (cfg.scull_quanta_count * cfg.scull_quantum_size) / cfg.scull_quantum_size,
            o % (cfg.scull_quanta_count * cfg.scull_quantum_size) % cfg.scull_quantum_size) := by
  have hQ := hv.qset_pos
  have hq := hv.1
  have hq31 := hv.quantum_lt
  have hQ31 := hv.2.2
  have hr0 := Int.emod_nonneg o (ne_of_gt hQ)
  have hr1 := Int.emod_lt_of_pos o hQ
  set Q := cfg.scull_quanta_count * cfg.scull_quantum_size with hQdef
  set r := o % Q with hrdef
  have hb0 : 0 ≤ r / cfg.scull_quantum_size := Int.ediv_nonneg hr0 (le_of_lt hq)
  have hb1 : r / cfg.scull_quantum_size ≤ r := Int.ediv_le_self _ hr0
  have hp0 := Int.emod_nonneg r (ne_of_gt hq)
  have hp1 := Int.emod_lt_of_pos r hq
  unfold scull_find
  rw [scull_qset_size_valid hv, ← hQdef]
  rw [if_neg (by omega)]
  simp only [Int.tdiv_eq_ediv h0 (le_of_lt hQ), Int.tmod_eq_emod h0 (le_of_lt hQ), ← hrdef]
  rw [toInt32_eq r (by omega) (by omega)]
  simp only [Int.tdiv_eq_ediv hr0 (le_of_lt hq), Int.tmod_eq_emod hr0 (le_of_lt hq)]
  rw [toInt32_eq (r / cfg.scull_quantum_size) (by omega) (by omega),
    toInt32_eq (r % cfg.scull_quantum_size) (by omega) (by omega)]

/-- The block index and the position that `scull_find` yields are in range. -/
theorem scull_find_bounds {cfg : Config} (hv : cfg.valid) (o : Int) :
    0 ≤ o % (cfg.scull_quanta_count * cfg.scull_quantum_size) / cfg.scull_quantum_size ∧
    o % (cfg.scull_quanta_count * cfg.scull_quantum_size) / cfg.scull_quantum_size
      < cfg.scull_quanta_count ∧
    0 ≤ o % (cfg.scull_quanta_count * cfg.scull_quantum_size) % cfg.scull_quantum_size ∧
    o % (cfg.scull_quanta_count * cfg.scull_quantum_size) % cfg.scull_quantum_size
      < cfg.scull_quantum_size := by
  have hQ := hv.qset_pos
  have hq := hv.1
  have hr0 := Int.emod_nonneg o (ne_of_gt hQ)
  have hr1 := Int.emod_lt_of_pos o hQ
  refine ⟨Int.ediv_nonneg hr0 (le_of_lt hq), Int.ediv_lt_of_lt_mul hq hr1,
    Int.emod_nonneg _ (ne_of_gt hq), Int.emod_lt_of_pos _ hq⟩

/-- The position inside the quantum is the offset modulo the quantum size. -/
theorem scull_find_pos_eq {cfg : Config} (o : Int) :
    o % (cfg.scull_quanta_count * cfg.scull_quantum_size) % cfg.scull_quantum_size
      = o % cfg.scull_quantum_size :=
  Int.emod_emod_of_dvd o (Dvd.intro_left _ rfl)

/-- Under a valid configuration the clamp to the quantum is the minimum of the count
and the room left in the quantum. -/
theorem clampToQuantum_valid {cfg : Config} (hv : cfg.valid) (p : Int) (hp0 : 0 ≤ p)
    (hp1 : p < cfg.scull_quantum_size) (count : Nat) :
    clampToQuantum cfg p count = min count (cfg.scull_quantum_size - p).toNat := by
  have hq31 := hv.quantum_lt
  unfold clampToQuantum
  rw [toInt32_eq _ (by omega) (by omega)]
  have h := toUInt64_eq (cfg.scull_quantum_size - p) (by omega) (by omega)
  split_ifs with h1 <;> omega

/-! ## The chain walk -/

theorem scull_follow_loop_size (kmalloc : Nat → Bool) (k : Nat) :
    ∀ (q : Option Nat) (dev : scull_device) (n : Nat) (r : FollowResult),
      scull_follow_loop kmalloc k q dev n = some r → r.dev.size = dev.size := by
  induction k with
  | zero =>
    intro q dev n r h
    simp only [scull_follow_loop, Option.some.injEq] at h
    subst h; rfl
  | succ k ih =>
    intro q dev n r h
    cases q with
    | none => simp [scull_follow_loop] at h
    | some i =>
      simp only [scull_follow_loop] at h
      split_ifs at h with h1 h2
      · exact ih _ _ _ _ h
      · exact (ih _ _ _ _ h).trans rfl
      · simp only [Option.some.injEq] at h
        subst h; rfl

theorem scull_follow_size (kmalloc : Nat → Bool) (n : Nat) (dev : scull_device)
    (qset_idx : Int) (r : FollowResult)
    (h : scull_follow kmalloc n dev qset_idx = some r) : r.dev.size = dev.size := by
  unfold scull_follow at h
  split at h
  · split_ifs at h with h1
    · exact (scull_follow_loop_size _ _ _ _ _ _ h).trans rfl
    · simp only [Option.some.injEq] at h
      subst h; rfl
  · exact scull_follow_loop_size _ _ _ _ _ _ h

theorem scull_follow_loop_present (kmalloc : Nat → Bool) (dev : scull_device) (n : Nat)
    (k : Nat) : ∀ i : Nat, i + k < dev.qsets.length →
      scull_follow_loop kmalloc k (some i) dev n =
        some { qset := some (i + k), dev := dev, nalloc := n } := by
  induction k with
  | zero => intro i _; rfl
  | succ k ih =>
    intro i hi
    simp only [scull_follow_loop]
    rw [if_pos (by omega), ih (i + 1) (by omega)]
    simp only [Option.some.injEq, FollowResult.mk.injEq, and_true, true_and]
    omega

/-- When the chain holds a Set at position `s`, the walk returns it; it requests no
allocation and leaves the device as it is. -/
theorem scull_follow_present (kmalloc : Nat → Bool) (n : Nat) (dev : scull_device)
    (s : Int) (h0 : 0 ≤ s) (h32 : s < 2 ^ 32) (hs : s.toNat < dev.qsets.length) :
    scull_follow kmalloc n dev s = some { qset := some s.toNat, dev := dev, nalloc := n } := by
  unfold scull_follow
  rw [toUInt32_eq s h0 h32]
  split
  · rename_i hnil
    rw [hnil] at hs
    exact absurd hs (by simp)
  · have := scull_follow_loop_present kmalloc dev n s.toNat 0 (by omega)
    simpa using this

theorem toInt32_lt (x : Int) : toInt32 x < 2 ^ 31 := by
  unfold toInt32; omega

theorem toInt32_ge (x : Int) : -2 ^ 31 ≤ toInt32 x := by
  unfold toInt32; omega

/-! ## Well-formed devices -/

theorem quantumAt_eq_some {dev : scull_device} {s b : Int} {quantum : List Byte}
    (h : quantumAt dev s b = some quantum) :
    0 ≤ s ∧ 0 ≤ b ∧ ∃ q quanta, dev.qsets.get? s.toNat = some q ∧ q.quanta = some quanta ∧
      quanta.get? b.toNat = some (some quantum) := by
  unfold quantumAt at h
  by_cases h1 : s < 0 ∨ b < 0
  · rw [if_pos h1] at h
    exact absurd h (by simp)
  · rw [if_neg h1] at h
    refine ⟨by omega, by omega, ?_⟩
    split at h
    · exact absurd h (by simp)
    · rename_i q hq
      split at h
      · exact absurd h (by simp)
      · rename_i quanta hquanta
        split at h
        · rename_i quantum1 hquantum
          simp only [Option.some.injEq] at h
          subst h
          exact ⟨q, quanta, hq, hquanta, hquantum⟩
        · exact absurd h (by simp)

theorem wf_quantum_length {cfg : Config} {dev : scull_device} (hwf : wf cfg dev)
    {i j : Nat} {q : scull_qset} {quanta : List (Option (List Byte))} {quantum : List Byte}
    (hq : dev.qsets.get? i = some q) (hquanta : q.quanta = some quanta)
    (hquantum : quanta.get? j = some (some quantum)) :
    quantum.length = cfg.scull_quantum_size.toNat := by
  have h1 := hwf.1 q (List.get?_mem hq)
  unfold wfQset at h1
  rw [hquanta] at h1
  exact h1.2 _ (List.get?_mem hquantum)

theorem toUInt64_lt (x : Int) : toUInt64 x < 2 ^ 64 := by
  unfold toUInt64; omega

theorem wf_emptyDevice (cfg : Config) : wf cfg emptyDevice := by
  refine ⟨fun q hq => ?_, by decide⟩
  simp [emptyDevice] at hq

theorem wf_zeroQset (cfg : Config) (size : Nat) (h : size < 2 ^ 64) :
    wf cfg { qsets := [zeroQset], size := size } := by
  refine ⟨fun q hq => ?_, h⟩
  simp only [List.mem_singleton] at hq
  subst hq; trivial

theorem wf_nil (cfg : Config) (size : Nat) (h : size < 2 ^ 64) :
    wf cfg { qsets := [], size := size } :=
  ⟨fun q hq => by simp at hq, h⟩

theorem scull_follow_loop_wf (cfg : Config) (kmalloc : Nat → Bool) (k : Nat) :
    ∀ (q : Option Nat) (dev : scull_device) (n : Nat) (r : FollowResult),
      wf cfg dev → scull_follow_loop kmalloc k q dev n = some r → wf cfg r.dev := by
  induction k with
  | zero =>
    intro q dev n r hwf h
    simp only [scull_follow_loop, Option.some.injEq] at h
    subst h; exact hwf
  | succ k ih =>
    intro q dev n r hwf h
    cases q with
    | none => simp [scull_follow_loop] at h
    | some i =>
      simp only [scull_follow_loop] at h
      split_ifs at h with h1 h2
      · exact ih _ _ _ _ hwf h
      · exact ih _ _ _ _ (wf_zeroQset cfg dev.size hwf.2) h
      · simp only [Option.some.injEq] at h
        subst h
        exact wf_nil cfg dev.size hwf.2

theorem scull_follow_wf (cfg : Config) (kmalloc : Nat → Bool) (n : Nat) (dev : scull_device)
    (qset_idx : Int) (r : FollowResult) (hwf : wf cfg dev)
    (h : scull_follow kmalloc n dev qset_idx = some r) : wf cfg r.dev := by
  unfold scull_follow at h
  split at h
  · split_ifs at h with h1
    · exact scull_follow_loop_wf cfg _ _ _ _ _ _ (wf_zeroQset cfg dev.size hwf.2) h
    · simp only [Option.some.injEq] at h
      subst h
      exact wf_nil cfg dev.size hwf.2
  · exact scull_follow_loop_wf cfg _ _ _ _ _ _ hwf h

theorem wf_setQuanta {cfg : Config} {dev : scull_device} (hwf : wf cfg dev) (i : Nat)
    (quanta : List (Option (List Byte))) (hlen : quanta.length = cfg.scull_quanta_count.toNat)
    (hslots : ∀ slot ∈ quanta, wfSlot cfg slot) : wf cfg (setQuanta dev i quanta) := by
  refine ⟨fun q hq => ?_, hwf.2⟩
  rcases List.mem_or_eq_of_mem_set hq with h | h
  · exact hwf.1 q h
  · subst h
    exact ⟨hlen, hslots⟩

theorem wf_set_slot {cfg : Config} {quanta : List (Option (List Byte))}
    (hlen : quanta.length = cfg.scull_quanta_count.toNat)
    (hslots : ∀ slot ∈ quanta, wfSlot cfg slot) (j : Nat) (quantum : List Byte)
    (hq : quantum.length = cfg.scull_quantum_size.toNat) :
    (quanta.set j (some quantum)).length = cfg.scull_quanta_count.toNat ∧
    ∀ slot ∈ quanta.set j (some quantum), wfSlot cfg slot := by
  refine ⟨by rw [List.length_set]; exact hlen, fun slot hs => ?_⟩
  rcases List.mem_or_eq_of_mem_set hs with h | h
  · exact hslots slot h
  · subst h
    exact hq

theorem scull_write_copy_wf (cfg : Config) (dev : scull_device) (i : Nat)
    (quanta : List (Option (List Byte))) (quantum : List Byte) (n : Nat)
    (buffer : List Byte) (count : Nat) (o : Int) (b p : Int) (r : WriteResult)
    (hwf : wf cfg dev) (hlen : quanta.length = cfg.scull_quanta_count.toNat)
    (hslots : ∀ slot ∈ quanta, wfSlot cfg slot)
    (hq : quantum.length = cfg.scull_quantum_size.toNat)
    (h : scull_write_copy cfg dev i quanta quantum n buffer count o b p = some r) :
    wf cfg r.dev := by
  unfold scull_write_copy at h
  by_cases h1 : p < 0 ∨ quantum.length < p.toNat + clampToQuantum cfg p count
  · rw [if_pos h1] at h
    exact absurd h (by simp)
  · rw [if_neg h1] at h
    by_cases h2 : clampToQuantum cfg p count ≤ buffer.length
    · rw [if_pos h2, Option.some.injEq] at h
      subst h
      have hnew := wf_set_slot hlen hslots b.toNat
        (quantum.take p.toNat ++ buffer.take (clampToQuantum cfg p count)
          ++ quantum.drop (p.toNat + clampToQuantum cfg p count))
        (by simp only [List.length_append, List.length_take, List.length_drop]; omega)
      refine ⟨(wf_setQuanta hwf i _ hnew.1 hnew.2).1, ?_⟩
      show (if _ then _ else _) < 2 ^ 64
      split_ifs
      · exact toUInt64_lt _
      · exact hwf.2
    · rw [if_neg h2, Option.some.injEq] at h
      subst h
      have hnew := wf_set_slot hlen hslots b.toNat
        (quantum.take p.toNat ++ buffer ++ quantum.drop (p.toNat + buffer.length))
        (by simp only [List.length_append, List.length_take, List.length_drop]; omega)
      exact wf_setQuanta hwf i _ hnew.1 hnew.2

theorem scull_write_quantum_wf (cfg : Config) (kmalloc : Nat → Bool) (dev : scull_device)
    (i : Nat) (quanta : List (Option (List Byte))) (n : Nat)
    (buffer : List Byte) (count : Nat) (o : Int) (b p : Int) (r : WriteResult)
    (hwf : wf cfg dev) (hlen : quanta.length = cfg.scull_quanta_count.toNat)
    (hslots : ∀ slot ∈ quanta, wfSlot cfg slot)
    (h : scull_write_quantum cfg kmalloc dev i quanta n buffer count o b p = some r) :
    wf cfg r.dev := by
  unfold scull_write_quantum at h
  by_cases h1 : b < 0
  · rw [if_pos h1] at h
    exact absurd h (by simp)
  · rw [if_neg h1] at h
    split at h
    · exact absurd h (by simp)
    · rename_i quantum hquantum
      exact scull_write_copy_wf _ _ _ _ _ _ _ _ _ _ _ _ hwf hlen hslots
        (hslots _ (List.get?_mem hquantum)) h
    · by_cases h2 : kmalloc n = true
      · rw [if_pos h2] at h
        exact scull_write_copy_wf _ _ _ _ _ _ _ _ _ _ _ _ hwf hlen hslots
          (List.length_replicate _ _) h
      · rw [if_neg h2, Option.some.injEq] at h
        subst h
        exact wf_setQuanta hwf i _ hlen hslots

theorem scull_write_qset_wf (cfg : Config) (kmalloc : Nat → Bool) (fr : FollowResult)
    (buffer : List Byte) (count : Nat) (o : Int) (b p : Int) (r : WriteResult)
    (hwf : wf cfg fr.dev)
    (h : scull_write_qset cfg kmalloc fr buffer count o b p = some r) : wf cfg r.dev := by
  unfold scull_write_qset at h
  split at h
  · simp only [Option.some.injEq] at h
    subst h
    exact hwf
  · split at h
    · exact absurd h (by simp)
    · rename_i q hq
      split at h
      · rename_i quanta hquanta
        have hwq := hwf.1 q (List.get?_mem hq)
        unfold wfQset at hwq
        rw [hquanta] at hwq
        exact scull_write_quantum_wf _ _ _ _ _ _ _ _ _ _ _ _ hwf hwq.1 hwq.2 h
      · by_cases h2 : kmalloc fr.nalloc = true
        · rw [if_pos h2] at h
          refine scull_write_quantum_wf _ _ _ _ _ _ _ _ _ _ _ _ hwf
            (List.length_replicate _ _) (fun slot hs => ?_) h
          rw [List.eq_of_mem_replicate hs]
          trivial
        · rw [if_neg h2, Option.some.injEq] at h
          subst h
          exact hwf

theorem scull_write_wf (cfg : Config) (kmalloc : Nat → Bool) (n : Nat) (dev : scull_device)
    (buffer : List Byte) (count : Nat) (o : Int) (r : WriteResult) (hwf : wf cfg dev)
    (h : scull_write cfg kmalloc n dev buffer count o = some r) : wf cfg r.dev := by
  unfold scull_write at h
  split at h
  · exact absurd h (by simp)
  · split at h
    · exact absurd h (by simp)
    · rename_i fr hfr
      exact scull_write_qset_wf _ _ _ _ _ _ _ _ _ (scull_follow_wf cfg _ _ _ _ _ hwf hfr) h

theorem scull_read_copy_dev (cfg : Config) (dev : scull_device) (n : Nat)
    (quantum buffer : List Byte) (count : Nat) (o p : Int) (r : ReadResult)
    (h : scull_read_copy cfg dev n quantum buffer count o p = some r) :
    r.dev = dev ∧ r.nalloc = n := by
  unfold scull_read_copy at h
  split_ifs at h <;> simp only [Option.some.injEq] at h <;> subst h <;> exact ⟨rfl, rfl⟩

theorem scull_read_qset_dev (cfg : Config) (fr : FollowResult) (buffer : List Byte)
    (count : Nat) (o b p : Int) (r : ReadResult)
    (h : scull_read_qset cfg fr buffer count o b p = some r) :
    r.dev = fr.dev ∧ r.nalloc = fr.nalloc := by
  unfold scull_read_qset at h
  split at h
  · simp only [Option.some.injEq] at h
    subst h; exact ⟨rfl, rfl⟩
  · split at h
    · exact absurd h (by simp)
    · split at h
      · simp only [Option.some.injEq] at h
        subst h; exact ⟨rfl, rfl⟩
      · by_cases h1 : b < 0
        · rw [if_pos h1] at h
          exact absurd h (by simp)
        · rw [if_neg h1] at h
          split at h
          · exact absurd h (by simp)
          · simp only [Option.some.injEq] at h
            subst h; exact ⟨rfl, rfl⟩
          · exact scull_read_copy_dev _ _ _ _ _ _ _ _ _ h

/-- A call of `scull_read` changes the device only through `scull_follow`. -/
theorem scull_read_dev (cfg : Config) (kmalloc : Nat → Bool) (n : Nat) (dev : scull_device)
    (buffer : List Byte) (count : Nat) (o : Int) (r : ReadResult)
    (h : scull_read cfg kmalloc n dev buffer count o = some r) :
    (r.dev = dev ∧ r.nalloc = n) ∨
    ∃ s b p fr, scull_find cfg o = some (s, b, p) ∧ scull_follow kmalloc n dev s = some fr ∧
      r.dev = fr.dev ∧ r.nalloc = fr.nalloc := by
  unfold scull_read at h
  by_cases h1 : dev.size ≤ toUInt64 o
  · rw [if_pos h1, Option.some.injEq] at h
    subst h; exact Or.inl ⟨rfl, rfl⟩
  · rw [if_neg h1] at h
    split at h
    · exact absurd h (by simp)
    · rename_i s b p hfind
      split at h
      · exact absurd h (by simp)
      · rename_i fr hfr
        exact Or.inr ⟨s, b, p, fr, hfind, hfr, scull_read_qset_dev _ _ _ _ _ _ _ _ h⟩

theorem scull_read_wf (cfg : Config) (kmalloc : Nat → Bool) (n : Nat) (dev : scull_device)
    (buffer : List Byte) (count : Nat) (o : Int) (r : ReadResult) (hwf : wf cfg dev)
    (h : scull_read cfg kmalloc n dev buffer count o = some r) : wf cfg r.dev := by
  rcases scull_read_dev _ _ _ _ _ _ _ _ h with ⟨h1, -⟩ | ⟨s, b, p, fr, -, hfr, h1, -⟩
  · rw [h1]; exact hwf
  · rw [h1]; exact scull_follow_wf cfg _ _ _ _ _ hwf hfr

/-- Every reachable device is well formed. -/
theorem Reachable.wf {cfg : Config} {dev : scull_device} (h : Reachable cfg dev) :
    wf cfg dev := by
  induction h with
  | init => exact wf_emptyDevice cfg
  | write kmalloc n dev buffer count f_pos r _ _ _ _ hw ih =>
    exact scull_write_wf _ _ _ _ _ _ _ _ ih hw
  | read kmalloc n dev buffer count f_pos r _ _ _ _ hr ih =>
    exact scull_read_wf _ _ _ _ _ _ _ _ ih hr
  | trim dev t _ ht _ =>
    unfold scull_trim at ht
    split at ht
    · exact absurd ht (by simp)
    · simp only [Option.some.injEq] at ht
      subst ht
      exact wf_emptyDevice cfg

/-- In a well-formed device, for indices in range, the part of `scull_read` after the
walk returns. -/
theorem scull_read_qset_total {cfg : Config} (hv : cfg.valid) (fr : FollowResult)
    (hwf : wf cfg fr.dev) (i : Nat) (hi : fr.qset = some i) (hlen : i < fr.dev.qsets.length)
    (buffer : List Byte) (count : Nat) (o b p : Int) (hb0 : 0 ≤ b)
    (hb1 : b < cfg.scull_quanta_count) (hp0 : 0 ≤ p) (hp1 : p < cfg.scull_quantum_size) :
    ∃ r, scull_read_qset cfg fr buffer count o b p = some r := by
  unfold scull_read_qset
  rw [hi]
  simp only
  obtain ⟨q, hq⟩ : ∃ q, fr.dev.qsets.get? i = some q :=
    ⟨fr.dev.qsets.get ⟨i, hlen⟩, List.get?_eq_get hlen⟩
  rw [hq]
  simp only
  cases hquanta : q.quanta with
  | none => exact ⟨_, rfl⟩
  | some quanta =>
    simp only
    rw [if_neg (by omega)]
    have hwq := hwf.1 q (List.get?_mem hq)
    unfold wfQset at hwq
    rw [hquanta] at hwq
    have hbl : b.toNat < quanta.length := by rw [hwq.1]; omega
    obtain ⟨slot, hslot⟩ : ∃ slot, quanta.get? b.toNat = some slot :=
      ⟨quanta.get ⟨b.toNat, hbl⟩, List.get?_eq_get hbl⟩
    rw [hslot]
    cases slot with
    | none => exact ⟨_, rfl⟩
    | some quantum =>
      simp only
      have hql : quantum.length = cfg.scull_quantum_size.toNat :=
        hwq.2 _ (List.get?_mem hslot)
      have hcl := clampToQuantum_valid hv p hp0 hp1 count
      unfold scull_read_copy
      rw [if_neg (by omega)]
      split_ifs
      · exact ⟨_, rfl⟩
      · exact ⟨_, rfl⟩

/-! ## Evaluations at the configuration of the source -/

/-- C1: with the source's configuration and every allocation succeeding, writing one
byte at offset 1048576 (the first byte of Set 1) into the zeroed device returns
`-ENOMEM`, and reading one byte back at that offset transfers nothing. -/
theorem scull_write_read_second_set :
    (scull_write defaultConfig allocOk 0 emptyDevice [65] 1 1048576).map
        (fun w => (w.retval, w.f_pos, w.dev.size)) = some (-12, 1048576, 0) ∧
    ((scull_write defaultConfig allocOk 0 emptyDevice [65] 1 1048576).bind
        (fun w => scull_read defaultConfig allocOk w.nalloc w.dev [0] 1 1048576)).map
        (fun r => (r.retval, r.buffer)) = some (0, [0]) := by
  decide!

/-- C2: the byte written at offset 0 is read back before, and is no longer
read back after, a write of one byte at offset 1048576 (which returns `-ENOMEM`
although every allocation succeeds). -/
theorem scull_write_second_set_loses_data :
    ((scull_write defaultConfig allocOk 0 emptyDevice [65] 1 0).bind
        (fun w => scull_read defaultConfig allocOk w.nalloc w.dev [0] 1 0)).map
        (fun r => (r.retval, r.buffer)) = some (1, [65]) ∧
    ((scull_write defaultConfig allocOk 0 emptyDevice [65] 1 0).bind
        (fun w => (scull_write defaultConfig allocOk w.nalloc w.dev [66] 1 1048576).bind
          (fun w1 => scull_read defaultConfig allocOk w1.nalloc w1.dev [0] 1 0))).map
        (fun r => (r.retval, r.buffer)) = some (0, [0]) := by
  decide!

/-- C3: with the source's configuration and every allocation succeeding, the two bytes
"AB" written from offset 1048575 (the last byte of Set 0) by repeated calls: the first
call stores "A" and returns 1, the second, at offset 1048576, returns `-ENOMEM`; reading
two bytes back from offset 1048575 then transfers nothing. -/
theorem scull_write_across_sets :
    (scull_write defaultConfig allocOk 0 emptyDevice [65, 66] 2 1048575).map
        (fun w => (w.retval, w.f_pos, w.dev.size)) = some (1, 1048576, 1048576) ∧
    ((scull_write defaultConfig allocOk 0 emptyDevice [65, 66] 2 1048575).bind
        (fun w => scull_write defaultConfig allocOk w.nalloc w.dev [66] 1 w.f_pos)).map
        (fun w1 => (w1.retval, w1.f_pos, w1.dev.size)) = some (-12, 1048576, 1048576) ∧
    ((scull_write defaultConfig allocOk 0 emptyDevice [65, 66] 2 1048575).bind
        (fun w => (scull_write defaultConfig allocOk w.nalloc w.dev [66] 1 w.f_pos).bind
          (fun w1 => scull_read defaultConfig allocOk w1.nalloc w1.dev [0, 0] 2 1048575))).map
        (fun r => (r.retval, r.buffer)) = some (0, [0, 0]) := by
  decide!

/-- C4: with the source's configuration, in the device that holds one byte at offset 0,
a write of 3 bytes at offset 1048581 requests one allocation (the fourth since the
start), which succeeds as the three before it did, and returns `-ENOMEM`; the clamped
count is 3. -/
theorem scull_write_enomem_without_failure :
    ((scull_write defaultConfig allocOk 0 emptyDevice [65] 1 0).bind
        (fun w => scull_write defaultConfig allocOk w.nalloc w.dev [66, 67, 68] 3 1048581)).map
        (fun w1 => (w1.retval, w1.nalloc)) = some (-ENOMEM, 4) ∧
    (scull_write defaultConfig allocOk 0 emptyDevice [65] 1 0).map (fun w => w.nalloc)
      = some 3 ∧
    allocOk 0 = true ∧ allocOk 1 = true ∧ allocOk 2 = true ∧ allocOk 3 = true ∧
    scull_find defaultConfig 1048581 = some (1, 0, 5) ∧
    clampToQuantum defaultConfig 5 3 = 3 := by
  decide!

/-! ## The shape of the result of a write -/

theorem scull_write_copy_shape (cfg : Config) (dev : scull_device) (i : Nat)
    (quanta : List (Option (List Byte))) (quantum : List Byte) (n : Nat)
    (buffer : List Byte) (count : Nat) (o : Int) (b p : Int) (r : WriteResult)
    (h : scull_write_copy cfg dev i quanta quantum n buffer count o b p = some r) :
    (r.retval = -ENOMEM ∧ r.f_pos = o ∧ r.dev.size = dev.size) ∨
    (r.retval = -EFAULT ∧ r.f_pos = o ∧ r.dev.size = dev.size ∧
      buffer.length < clampToQuantum cfg p count) ∨
    (r.retval = clampToQuantum cfg p count ∧
      r.f_pos = toInt64 (o + clampToQuantum cfg p count) ∧
      r.dev.size = (if dev.size < toUInt64 (toInt64 (o + clampToQuantum cfg p count))
        then toUInt64 (toInt64 (o + clampToQuantum cfg p count)) else dev.size) ∧
      clampToQuantum cfg p count ≤ buffer.length) := by
  unfold scull_write_copy at h
  by_cases h1 : p < 0 ∨ quantum.length < p.toNat + clampToQuantum cfg p count
  · rw [if_pos h1] at h
    exact absurd h (by simp)
  · rw [if_neg h1] at h
    by_cases h2 : clampToQuantum cfg p count ≤ buffer.length
    · rw [if_pos h2, Option.some.injEq] at h
      subst h
      exact Or.inr (Or.inr ⟨rfl, rfl, rfl, h2⟩)
    · rw [if_neg h2, Option.some.injEq] at h
      subst h
      exact Or.inr (Or.inl ⟨rfl, rfl, rfl, by omega⟩)

theorem scull_write_quantum_shape (cfg : Config) (kmalloc : Nat → Bool) (dev : scull_device)
    (i : Nat) (quanta : List (Option (List Byte))) (n : Nat)
    (buffer : List Byte) (count : Nat) (o : Int) (b p : Int) (r : WriteResult)
    (h : scull_write_quantum cfg kmalloc dev i quanta n buffer count o b p = some r) :
    (r.retval = -ENOMEM ∧ r.f_pos = o ∧ r.dev.size = dev.size) ∨
    (r.retval = -EFAULT ∧ r.f_pos = o ∧ r.dev.size = dev.size ∧
      buffer.length < clampToQuantum cfg p count) ∨
    (r.retval = clampToQuantum cfg p count ∧
      r.f_pos = toInt64 (o + clampToQuantum cfg p count) ∧
      r.dev.size = (if dev.size < toUInt64 (toInt64 (o + clampToQuantum cfg p count))
        then toUInt64 (toInt64 (o + clampToQuantum cfg p count)) else dev.size) ∧
      clampToQuantum cfg p count ≤ buffer.length) := by
  unfold scull_write_quantum at h
  by_cases h1 : b < 0
  · rw [if_pos h1] at h
    exact absurd h (by simp)
  · rw [if_neg h1] at h
    split at h
    · exact absurd h (by simp)
    · exact scull_write_copy_shape _ _ _ _ _ _ _ _ _ _ _ _ h
    · by_cases h2 : kmalloc n = true
      · rw [if_pos h2] at h
        exact scull_write_copy_shape _ _ _ _ _ _ _ _ _ _ _ _ h
      · rw [if_neg h2, Option.some.injEq] at h
        subst h
        exact Or.inl ⟨rfl, rfl, rfl⟩

theorem scull_write_qset_shape (cfg : Config) (kmalloc : Nat → Bool) (fr : FollowResult)
    (buffer : List Byte) (count : Nat) (o : Int) (b p : Int) (r : WriteResult)
    (h : scull_write_qset cfg kmalloc fr buffer count o b p = some r) :
    (r.retval = -ENOMEM ∧ r.f_pos = o ∧ r.dev.size = fr.dev.size) ∨
    (r.retval = -EFAULT ∧ r.f_pos = o ∧ r.dev.size = fr.dev.size ∧
      buffer.length < clampToQuantum cfg p count) ∨
    (r.retval = clampToQuantum cfg p count ∧
      r.f_pos = toInt64 (o + clampToQuantum cfg p count) ∧
      r.dev.size = (if fr.dev.size < toUInt64 (toInt64 (o + clampToQuantum cfg p count))
        then toUInt64 (toInt64 (o + clampToQuantum cfg p count)) else fr.dev.size) ∧
      clampToQuantum cfg p count ≤ buffer.length) := by
  unfold scull_write_qset at h
  split at h
  · simp only [Option.some.injEq] at h
    subst h
    exact Or.inl ⟨rfl, rfl, rfl⟩
  · split at h
    · exact absurd h (by simp)
    · split at h
      · exact scull_write_quantum_shape _ _ _ _ _ _ _ _ _ _ _ _ h
      · by_cases h2 : kmalloc fr.nalloc = true
        · rw [if_pos h2] at h
          exact scull_write_quantum_shape _ _ _ _ _ _ _ _ _ _ _ _ h
        · rw [if_neg h2, Option.some.injEq] at h
          subst h
          exact Or.inl ⟨rfl, rfl, rfl⟩

/-- A call of `scull_write` that returns has one of three outcomes: `-ENOMEM`,
`-EFAULT` (cursor and `size` as before in both), or the clamped count, with the
cursor advanced by it and `size` raised to the new cursor when that is larger. -/
theorem scull_write_shape (cfg : Config) (kmalloc : Nat → Bool) (n : Nat)
    (dev : scull_device) (buffer : List Byte) (count : Nat) (o : Int) (s b p : Int)
    (hfind : scull_find cfg o = some (s, b, p)) (r : WriteResult)
    (h : scull_write cfg kmalloc n dev buffer count o = some r) :
    (r.retval = -ENOMEM ∧ r.f_pos = o ∧ r.dev.size = dev.size) ∨
    (r.retval = -EFAULT ∧ r.f_pos = o ∧ r.dev.size = dev.size ∧
      buffer.length < clampToQuantum cfg p count) ∨
    (r.retval = clampToQuantum cfg p count ∧
      r.f_pos = toInt64 (o + clampToQuantum cfg p count) ∧
      r.dev.size = (if dev.size < toUInt64 (toInt64 (o + clampToQuantum cfg p count))
        then toUInt64 (toInt64 (o + clampToQuantum cfg p count)) else dev.size) ∧
      clampToQuantum cfg p count ≤ buffer.length) := by
  unfold scull_write at h
  rw [hfind] at h
  simp only at h
  split at h
  · exact absurd h (by simp)
  · rename_i fr hfr
    have hs := scull_follow_size _ _ _ _ _ hfr
    rw [← hs]
    exact scull_write_qset_shape _ _ _ _ _ _ _ _ _ h

/-! ## Size bookkeeping -/

/-- C5: a `scull_write` call at a non-negative offset `o` that returns `n ≥ 0` leaves
`size = max size_before (o + n)`; one that returns an error leaves `size` as it
was; in both cases `size` does not decrease. -/
theorem scull_write_size (cfg : Config) (hv : cfg.valid) (kmalloc : Nat → Bool) (n : Nat)
    (dev : scull_device) (buffer : List Byte) (count : Nat) (o : Int)
    (h0 : 0 ≤ o) (h63 : o < 2 ^ 63) (r : WriteResult)
    (h : scull_write cfg kmalloc n dev buffer count o = some r) :
    (0 ≤ r.retval → (r.dev.size : Int) = max (dev.size : Int) (o + r.retval)) ∧
    (r.retval < 0 → r.dev.size = dev.size) ∧
    dev.size ≤ r.dev.size := by
  obtain ⟨hb0, hb1, hp0, hp1⟩ := scull_find_bounds hv o
  have hq31 := hv.quantum_lt
  have hsh := scull_write_shape cfg kmalloc n dev buffer count o _ _ _
    (scull_find_valid hv o h0) r h
  have hcl := clampToQuantum_valid hv _ hp0 hp1 count
  set c := clampToQuantum cfg
    (o % (cfg.scull_quanta_count * cfg.scull_quantum_size) % cfg.scull_quantum_size) count
  have hc : (c : Int) < 2 ^ 31 := by omega
  have hu := toUInt64_toInt64 (o + c) (by omega) (by omega)
  rcases hsh with ⟨h1, -, h3⟩ | ⟨h1, -, h3, -⟩ | ⟨h1, -, h3, -⟩
  · rw [h1, h3]; simp [ENOMEM]
  · rw [h1, h3]; simp [EFAULT]
  · rw [h1, h3]
    split_ifs with h4
    · refine ⟨fun _ => ?_, fun h5 => ?_, ?_⟩ <;> omega
    · refine ⟨fun _ => ?_, fun h5 => ?_, ?_⟩ <;> omega

/-- C5, at an instance: the first write of one byte at offset 0 (quanta of 4 bytes,
2 per Set) returns 1 and leaves `size = 1`. -/
theorem scull_write_size_witness :
    smallConfig.valid ∧
    scull_write smallConfig allocOk 0 emptyDevice [65] 1 0 =
      some { retval := 1, f_pos := 1,
             dev := { qsets := [{ quanta := some [some [65, 0, 0, 0], none] }], size := 1 },
             nalloc := 3 } ∧
    ((0 ≤ (1 : Int) → ((1 : Nat) : Int) = max ((0 : Nat) : Int) (0 + 1)) ∧
      ((1 : Int) < 0 → (1 : Nat) = 0) ∧ 0 ≤ 1) :=
  ⟨by decide, by decide,
    scull_write_size smallConfig (by decide) allocOk 0 emptyDevice [65] 1 0 (by decide)
      (by decide)
      { retval := 1, f_pos := 1,
        dev := { qsets := [{ quanta := some [some [65, 0, 0, 0], none] }], size := 1 },
        nalloc := 3 } (by decide)⟩

/-! ## Address translation -/

/-- C6, as amended: for a valid configuration and a non-negative offset `o` whose Set
index `o / (quanta_count * quantum_size)` is below `2 ^ 31`, `scull_find` yields
`(s, b, p)` with `o = s * quanta_count * quantum_size + b * quantum_size + p`,
`0 ≤ b < quanta_count`, `0 ≤ p < quantum_size`, and `s`, `b`, `p` are the quotients
and remainders of the specification. -/
theorem scull_find_decomposition (cfg : Config) (hv : cfg.valid) (o : Int) (h0 : 0 ≤ o)
    (hs : o / (cfg.scull_quanta_count * cfg.scull_quantum_size) < 2 ^ 31) :
    ∃ s b p : Int, scull_find cfg o = some (s, b, p) ∧
      o = s * cfg.scull_quanta_count * cfg.scull_quantum_size + b * cfg.scull_quantum_size + p ∧
      0 ≤ b ∧ b < cfg.scull_quanta_count ∧ 0 ≤ p ∧ p < cfg.scull_quantum_size ∧
      s = o / (cfg.scull_quanta_count * cfg.scull_quantum_size) ∧
      b = o % (cfg.scull_quanta_count * cfg.scull_quantum_size) / cfg.scull_quantum_size ∧
      p = o % (cfg.scull_quanta_count * cfg.scull_quantum_size) % cfg.scull_quantum_size := by
  obtain ⟨hb0, hb1, hp0, hp1⟩ := scull_find_bounds hv o
  have hQ := hv.qset_pos
  have hs0 : 0 ≤ o / (cfg.scull_quanta_count * cfg.scull_quantum_size) :=
    Int.ediv_nonneg h0 (le_of_lt hQ)
  refine ⟨_, _, _, ?_, ?_, hb0, hb1, hp0, hp1, rfl, rfl, rfl⟩
  · rw [scull_find_valid hv o h0, toInt32_eq _ (by omega) hs]
  · have e1 := Int.ediv_add_emod o (cfg.scull_quanta_count * cfg.scull_quantum_size)
    have e2 := Int.ediv_add_emod
      (o % (cfg.scull_quanta_count * cfg.scull_quantum_size)) cfg.scull_quantum_size
    linear_combination -e1 - e2

/-- C6, at an instance: offset 1100 with the source's configuration is Set 0, block 1,
position 76. -/
theorem scull_find_decomposition_witness :
    defaultConfig.valid ∧
    ∃ s b p : Int, scull_find defaultConfig 1100 = some (s, b, p) ∧
      (1100 : Int) = s * defaultConfig.scull_quanta_count * defaultConfig.scull_quantum_size
        + b * defaultConfig.scull_quantum_size + p ∧
      0 ≤ b ∧ b < defaultConfig.scull_quanta_count ∧ 0 ≤ p ∧
      p < defaultConfig.scull_quantum_size ∧
      s = 1100 / (defaultConfig.scull_quanta_count * defaultConfig.scull_quantum_size) ∧
      b = 1100 % (defaultConfig.scull_quanta_count * defaultConfig.scull_quantum_size)
            / defaultConfig.scull_quantum_size ∧
      p = 1100 % (defaultConfig.scull_quanta_count * defaultConfig.scull_quantum_size)
            % defaultConfig.scull_quantum_size :=
  ⟨by decide, scull_find_decomposition defaultConfig (by decide) 1100 (by decide) (by decide)⟩

/-- C6 as stated fails: with the source's configuration, offset `2 ^ 51` has Set index
`2 ^ 31`, which the `int` result holds as `-2147483648`, and the three results do not
add up to the offset; and with the positive values 65536 and 65536 the `int`
`scull_qset_size` is 0, so that `scull_find` divides by zero at every offset. -/
theorem scull_find_large_offset :
    defaultConfig.valid ∧ (0 : Int) ≤ 2251799813685248 ∧ (2251799813685248 : Int) < 2 ^ 63 ∧
    scull_find defaultConfig 2251799813685248 = some (-2147483648, 0, 0) ∧
    (2251799813685248 : Int) ≠
      -2147483648 * defaultConfig.scull_quanta_count * defaultConfig.scull_quantum_size
        + 0 * defaultConfig.scull_quantum_size + 0 ∧
    scull_qset_size { scull_quantum_size := 65536, scull_quanta_count := 65536 } = 0 ∧
    scull_find { scull_quantum_size := 65536, scull_quanta_count := 65536 } 0 = none := by
  decide

/-! ## Reading at or beyond the end of data -/

/-- C8: `scull_read` at an offset `o ≥ size` returns 0, whatever the count; the cursor,
the user buffer and the device are as before and no allocation is requested. -/
theorem scull_read_end_of_data (cfg : Config) (kmalloc : Nat → Bool) (n : Nat)
    (dev : scull_device) (buffer : List Byte) (count : Nat) (o : Int)
    (h : (dev.size : Int) ≤ o) (h63 : o < 2 ^ 63) :
    scull_read cfg kmalloc n dev buffer count o =
      some { retval := 0, buffer := buffer, f_pos := o, dev := dev, nalloc := n } := by
  unfold scull_read
  rw [if_pos]
  have := toUInt64_eq o (by omega) (by omega)
  omega

/-- C8, at an instance: after one byte was written at offset 0, reading 4 bytes at
offset 1 returns 0. -/
theorem scull_read_end_of_data_witness :
    scull_read smallConfig allocOk 3
      { qsets := [{ quanta := some [some [65, 0, 0, 0], none] }], size := 1 } [0, 0, 0, 0] 4 1 =
      some { retval := 0, buffer := [0, 0, 0, 0], f_pos := 1,
             dev := { qsets := [{ quanta := some [some [65, 0, 0, 0], none] }], size := 1 },
             nalloc := 3 } :=
  scull_read_end_of_data smallConfig allocOk 3
    { qsets := [{ quanta := some [some [65, 0, 0, 0], none] }], size := 1 } [0, 0, 0, 0] 4 1
    (by decide) (by decide)

/-! ## Reading from a present quantum -/

theorem clampToSize_eq (dev : scull_device) (count : Nat) (o : Int) (h0 : 0 ≤ o)
    (hc : o + count < 2 ^ 64) :
    clampToSize dev count o = min count (dev.size - o.toNat) := by
  unfold clampToSize
  have h1 := toUInt64_eq o h0 (by omega)
  have h2 : (toUInt64 o + count) % 2 ^ 64 = o.toNat + count := by omega
  rw [h2]
  split_ifs with h3 <;> omega

/-- C7, as amended: in a well-formed device, for an offset `0 ≤ o < size` at which
`scull_find` yields `(s, b, p)` and the Set `s`, its block array and the quantum in slot
`b` are present, and for a count `c` with `o + c < 2 ^ 64`, `scull_read` (the user buffer
taking the bytes) transfers exactly `min c (min (size - o) (quantum_size - p))` bytes,
`p = o mod quantum_size`, and they are the bytes of the quantum from position `p`
on. -/
theorem scull_read_clamp (cfg : Config) (hv : cfg.valid) (kmalloc : Nat → Bool) (n : Nat)
    (dev : scull_device) (hwf : wf cfg dev) (buffer : List Byte) (count : Nat) (o : Int)
    (s b p : Int) (quantum : List Byte)
    (h0 : 0 ≤ o) (hlt : o < dev.size) (hc : o + count < 2 ^ 64)
    (hfind : scull_find cfg o = some (s, b, p))
    (hq : quantumAt dev s b = some quantum)
    (hbuf : min count (min (dev.size - o.toNat) (cfg.scull_quantum_size - p).toNat)
              ≤ buffer.length) :
    p = o % cfg.scull_quantum_size ∧
    scull_read cfg kmalloc n dev buffer count o =
      some { retval := (min count (min (dev.size - o.toNat)
                          (cfg.scull_quantum_size - p).toNat) : Nat),
             buffer := (quantum.drop p.toNat).take
                          (min count (min (dev.size - o.toNat)
                            (cfg.scull_quantum_size - p).toNat))
                        ++ buffer.drop (min count (min (dev.size - o.toNat)
                            (cfg.scull_quantum_size - p).toNat)),
             f_pos := toInt64 (o + (min count (min (dev.size - o.toNat)
                          (cfg.scull_quantum_size - p).toNat) : Nat)),
             dev := dev, nalloc := n } := by
  obtain ⟨hb0, hb1, hp0, hp1⟩ := scull_find_bounds hv o
  have hfv := scull_find_valid hv o h0
  rw [hfind, Option.some.injEq, Prod.mk.injEq, Prod.mk.injEq] at hfv
  obtain ⟨hs, hb, hp⟩ := hfv
  rw [← hp] at hp0 hp1
  obtain ⟨hs0, -, q, quanta, hget, hquanta, hquantum⟩ := quantumAt_eq_some hq
  have hslen : s.toNat < dev.qsets.length := by
    rw [List.get?_eq_getElem?] at hget
    exact (List.getElem?_eq_some.mp hget).1
  have hs32 : s < 2 ^ 32 := by
    have := toInt32_lt (o / (cfg.scull_quanta_count * cfg.scull_quantum_size))
    rw [← hs] at this
    omega
  have hqlen := wf_quantum_length hwf hget hquanta hquantum
  have hcl : clampToQuantum cfg p (clampToSize dev count o) =
      min count (min (dev.size - o.toNat) (cfg.scull_quantum_size - p).toNat) := by
    rw [clampToQuantum_valid hv p hp0 hp1, clampToSize_eq dev count o h0 hc]
    omega
  refine ⟨by rw [hp]; exact scull_find_pos_eq o, ?_⟩
  unfold scull_read
  have hu := toUInt64_eq o h0 (by omega)
  rw [if_neg (by omega), hfind]
  simp only
  rw [scull_follow_present kmalloc n dev s hs0 hs32 hslen]
  have hbn : ¬ b < 0 := by rw [hb]; omega
  simp only [scull_read_qset, hget, hquanta, hquantum, if_neg hbn]
  unfold scull_read_copy
  rw [hcl, if_neg (by omega), if_pos hbuf]

/-- C7, at the scenario of the specification: quanta of 4 bytes, 2 per Set; the device
is the one two writes of "ABCDEF" at offset 0 leave; reading 4 bytes at offset 4
transfers the 2 bytes "EF". -/
theorem scull_read_clamp_witness :
    ((scull_write smallConfig allocOk 0 emptyDevice [65, 66, 67, 68, 69, 70] 6 0).bind
        (fun w => scull_write smallConfig allocOk w.nalloc w.dev [69, 70] 2 w.f_pos)).map
        (fun w1 => w1.dev) = some deviceABCDEF ∧
    ((0 : Int) = 4 % smallConfig.scull_quantum_size ∧
      scull_read smallConfig allocOk 4 deviceABCDEF [0, 0, 0, 0] 4 4 =
        some { retval := 2, buffer := [69, 70, 0, 0], f_pos := 6, dev := deviceABCDEF,
               nalloc := 4 }) :=
  ⟨by decide,
    scull_read_clamp smallConfig (by decide) allocOk 4 deviceABCDEF (by decide) [0, 0, 0, 0] 4 4
      0 1 0 [69, 70, 0, 0] (by decide) (by decide) (by decide) (by decide) (by decide)
      (by decide)⟩

/-- C7 as stated fails for a count whose sum with the offset passes `2 ^ 64`: in the
device of the scenario, reading `2 ^ 64 - 4` bytes at offset 4 is not clamped to
`size - o = 2`; it transfers the 4 bytes of the quantum, two of them beyond `size`. -/
theorem scull_read_count_wraps :
    smallConfig.valid ∧ wf smallConfig deviceABCDEF ∧ (4 : Int) < deviceABCDEF.size ∧
    scull_find smallConfig 4 = some (0, 1, 0) ∧
    quantumAt deviceABCDEF 0 1 = some [69, 70, 0, 0] ∧
    18446744073709551612 < 2 ^ 64 ∧
    scull_read smallConfig allocOk 4 deviceABCDEF [0, 0, 0, 0] 18446744073709551612 4 =
      some { retval := 4, buffer := [69, 70, 0, 0], f_pos := 8, dev := deviceABCDEF,
             nalloc := 4 } ∧
    min 18446744073709551612 (min (deviceABCDEF.size - 4) (4 - 0)) = 2 := by
  decide

/-! ## Reading where no Set is -/

/-- C9: with the source's configuration and every allocation succeeding, one byte is
written at offset `2 ^ 52` (Set index `2 ^ 32`, which the `int` holds as 0), so
`size = 2 ^ 52 + 1` and the chain has one Set; reading one byte at offset 2097152
(Set index 2, below `size`, no such Set) does not return: the second iteration of the
loop of `scull_follow` reads `qset->next` of a `NULL` pointer. -/
theorem scull_read_absent_set_faults :
    (scull_write defaultConfig allocOk 0 emptyDevice [65] 1 4503599627370496).map
        (fun w => (w.retval, w.dev.size, w.dev.qsets.length))
      = some (1, 4503599627370497, 1) ∧
    scull_find defaultConfig 2097152 = some (2, 0, 0) ∧
    (scull_write defaultConfig allocOk 0 emptyDevice [65] 1 4503599627370496).bind
        (fun w => scull_read defaultConfig allocOk w.nalloc w.dev [0] 1 2097152) = none ∧
    (scull_write defaultConfig allocOk 0 emptyDevice [65] 1 4503599627370496).bind
        (fun w => scull_follow allocOk w.nalloc w.dev 2) = none := by
  decide!

/-! ## Reading and the store -/

theorem reachable_deviceABCDEF : Reachable smallConfig deviceABCDEF :=
  Reachable.write allocOk 3
    { qsets := [{ quanta := some [some [65, 66, 67, 68], none] }], size := 4 } [69, 70] 2 4
    { retval := 2, f_pos := 6, dev := deviceABCDEF, nalloc := 4 }
    (Reachable.write allocOk 0 emptyDevice [65, 66, 67, 68, 69, 70] 6 0
      { retval := 4, f_pos := 4,
        dev := { qsets := [{ quanta := some [some [65, 66, 67, 68], none] }], size := 4 },
        nalloc := 3 }
      Reachable.init (by decide) (by decide) (by decide) (by decide))
    (by decide) (by decide) (by decide) (by decide)

/-- C10, as amended: in every reachable state, for a valid configuration, a call of
`scull_read` at an offset `o ≥ 0` that is at or beyond `size`, or for which the chain
holds a Set at the index that `scull_find` yields, returns, requests no allocation and
leaves the device (chain, block arrays, quanta and `size`) as it was. -/
theorem scull_read_pure (cfg : Config) (hv : cfg.valid) (kmalloc : Nat → Bool) (n : Nat)
    (dev : scull_device) (hr : Reachable cfg dev) (buffer : List Byte) (count : Nat)
    (o : Int) (h0 : 0 ≤ o) (s b p : Int) (hfind : scull_find cfg o = some (s, b, p))
    (hset : (dev.size : Int) ≤ o ∨ (0 ≤ s ∧ s.toNat < dev.qsets.length)) (h63 : o < 2 ^ 63) :
    ∃ r, scull_read cfg kmalloc n dev buffer count o = some r ∧ r.dev = dev ∧ r.nalloc = n := by
  have hu := toUInt64_eq o h0 (by omega)
  unfold scull_read
  by_cases h1 : dev.size ≤ toUInt64 o
  · rw [if_pos h1]
    exact ⟨_, rfl, rfl, rfl⟩
  · rw [if_neg h1]
    rcases hset with hge | ⟨hs0, hslen⟩
    · omega
    · obtain ⟨hb0, hb1, hp0, hp1⟩ := scull_find_bounds hv o
      have hfv := scull_find_valid hv o h0
      rw [hfind, Option.some.injEq, Prod.mk.injEq, Prod.mk.injEq] at hfv
      obtain ⟨hs, hb, hp⟩ := hfv
      rw [← hb] at hb0 hb1
      rw [← hp] at hp0 hp1
      have hs32 : s < 2 ^ 32 := by
        have := toInt32_lt (o / (cfg.scull_quanta_count * cfg.scull_quantum_size))
        rw [← hs] at this
        omega
      rw [hfind]
      simp only
      rw [scull_follow_present kmalloc n dev s hs0 hs32 hslen]
      simp only
      obtain ⟨r, hrd⟩ := scull_read_qset_total hv
        { qset := some s.toNat, dev := dev, nalloc := n } hr.wf s.toNat rfl hslen buffer
        (clampToSize dev count o) o b p hb0 hb1 hp0 hp1
      have hd := scull_read_qset_dev _ _ _ _ _ _ _ _ hrd
      exact ⟨r, hrd, hd.1, hd.2⟩

/-- C10, at an instance: in the device of the scenario, reading 2 bytes at offset 1
leaves the device as it is and requests no allocation. -/
theorem scull_read_pure_witness :
    ∃ r, scull_read smallConfig allocOk 4 deviceABCDEF [0, 0] 2 1 = some r ∧
      r.dev = deviceABCDEF ∧ r.nalloc = 4 :=
  scull_read_pure smallConfig (by decide) allocOk 4 deviceABCDEF reachable_deviceABCDEF
    [0, 0] 2 1 (by decide) 0 0 1 (by decide) (Or.inr ⟨by decide, by decide⟩) (by decide)

/-- C10 as stated fails: with the source's configuration, one byte is written at offset
0, then a write at offset 1048576 has its allocation of a Set refused, which leaves the
head `NULL` with `size = 1`; in that reachable state a read of one byte at offset 0
requests an allocation and links a new Set at the head. -/
theorem scull_read_allocates :
    Reachable defaultConfig { qsets := [], size := 1 } ∧
    scull_read defaultConfig allocOk 0 { qsets := [], size := 1 } [0] 1 0 =
      some { retval := 0, buffer := [0], f_pos := 0,
             dev := { qsets := [zeroQset], size := 1 }, nalloc := 1 } ∧
    ({ qsets := [zeroQset], size := 1 } : scull_device) ≠ { qsets := [], size := 1 } :=
  ⟨Reachable.write allocFail 3
      { qsets := [{ quanta := some (some (65 :: List.replicate 1023 0)
                      :: List.replicate 1023 none) }], size := 1 } [66] 1 1048576
      { retval := -12, f_pos := 1048576, dev := { qsets := [], size := 1 }, nalloc := 4 }
      (Reachable.write allocOk 0 emptyDevice [65] 1 0
        { retval := 1, f_pos := 1,
          dev := { qsets := [{ quanta := some (some (65 :: List.replicate 1023 0)
                      :: List.replicate 1023 none) }], size := 1 },
          nalloc := 3 }
        Reachable.init (by decide) (by decide) (by decide) (by decide!))
      (by decide) (by decide) (by decide) (by decide!),
    by decide, by decide⟩

/-! ## Truncation -/

theorem scull_trim_loop_total {cfg : Config} (qsets : List scull_qset)
    (hwf : ∀ q ∈ qsets, wfQset cfg q) :
    ∀ nfree : Nat, ∃ k, scull_trim_loop cfg qsets nfree = some k := by
  induction qsets with
  | nil => intro nfree; exact ⟨nfree, rfl⟩
  | cons q rest ih =>
    intro nfree
    have hq := hwf q (List.mem_cons_self _ _)
    unfold wfQset at hq
    simp only [scull_trim_loop, scull_trim_quanta]
    cases hquanta : q.quanta with
    | none => exact ih (fun q1 h1 => hwf q1 (List.mem_cons_of_mem _ h1)) _
    | some quanta =>
      rw [hquanta] at hq
      simp only
      rw [if_neg (by omega)]
      exact ih (fun q1 h1 => hwf q1 (List.mem_cons_of_mem _ h1)) _

/-- In a well-formed device `scull_trim` returns. -/
theorem scull_trim_total {cfg : Config} {dev : scull_device} (hwf : wf cfg dev) :
    ∃ nfree, scull_trim cfg dev = some { dev := emptyDevice, nfree := nfree } := by
  obtain ⟨k, hk⟩ := scull_trim_loop_total dev.qsets hwf.1 0
  exact ⟨k, by unfold scull_trim; rw [hk]; rfl⟩

/-- C11: in every well-formed store `scull_trim` returns and leaves the chain head
absent and `size = 0`; on the store it leaves (and on the zeroed device) a second
`scull_trim` releases nothing and changes nothing. -/
theorem scull_trim_empties (cfg : Config) (dev : scull_device) (hwf : wf cfg dev) :
    ∃ t, scull_trim cfg dev = some t ∧ t.dev.qsets = [] ∧ t.dev.size = 0 ∧
      scull_trim cfg t.dev = some { dev := t.dev, nfree := 0 } ∧
      scull_trim cfg emptyDevice = some { dev := emptyDevice, nfree := 0 } := by
  obtain ⟨k, hk⟩ := scull_trim_total hwf
  exact ⟨_, hk, rfl, rfl, rfl, rfl⟩

/-- C11, at the scenario of the specification: truncating the device that holds
"ABCDEF" releases its 4 objects (two quanta, the block array, the Set) and leaves the
zeroed device. -/
theorem scull_trim_empties_witness :
    scull_trim smallConfig deviceABCDEF = some { dev := emptyDevice, nfree := 4 } ∧
    ∃ t, scull_trim smallConfig deviceABCDEF = some t ∧ t.dev.qsets = [] ∧ t.dev.size = 0 ∧
      scull_trim smallConfig t.dev = some { dev := t.dev, nfree := 0 } ∧
      scull_trim smallConfig emptyDevice = some { dev := emptyDevice, nfree := 0 } :=
  ⟨by decide, scull_trim_empties smallConfig deviceABCDEF (by decide)⟩

/-- A call of `scull_write` that returns an error leaves `size` as it was. -/
theorem scull_write_error_size (cfg : Config) (kmalloc : Nat → Bool) (n : Nat)
    (dev : scull_device) (buffer : List Byte) (count : Nat) (o : Int) (r : WriteResult)
    (h : scull_write cfg kmalloc n dev buffer count o = some r) (herr : r.retval < 0) :
    r.dev.size = dev.size := by
  cases hfind : scull_find cfg o with
  | none =>
    unfold scull_write at h
    rw [hfind] at h
    exact absurd h (by simp)
  | some sbp =>
    obtain ⟨s, b, p⟩ := sbp
    rcases scull_write_shape cfg kmalloc n dev buffer count o s b p hfind r h with
      ⟨-, -, h3⟩ | ⟨-, -, h3, -⟩ | ⟨h1, -, -, -⟩
    · exact h3
    · exact h3
    · rw [h1] at herr
      omega

/-- A call of `scull_read` leaves `size` as it was. -/
theorem scull_read_size (cfg : Config) (kmalloc : Nat → Bool) (n : Nat) (dev : scull_device)
    (buffer : List Byte) (count : Nat) (o : Int) (r : ReadResult)
    (h : scull_read cfg kmalloc n dev buffer count o = some r) : r.dev.size = dev.size := by
  rcases scull_read_dev _ _ _ _ _ _ _ _ h with ⟨h1, -⟩ | ⟨s, b, p, fr, -, hfr, h1, -⟩
  · rw [h1]
  · rw [h1]; exact scull_follow_size _ _ _ _ _ hfr

theorem NoWriteSince.size {cfg : Config} {dev0 dev : scull_device}
    (h : NoWriteSince cfg dev0 dev) : dev.size = dev0.size := by
  induction h with
  | start => rfl
  | read kmalloc n dev buffer count f_pos r _ hr ih =>
    rw [scull_read_size _ _ _ _ _ _ _ _ hr, ih]
  | failed kmalloc n dev buffer count f_pos r _ hw herr ih =>
    rw [scull_write_error_size _ _ _ _ _ _ _ _ hw herr, ih]

/-- C12: in every well-formed store `scull_trim` returns, and from then on, through any
calls of `scull_read` and any calls of `scull_write` that return an error, every
`scull_read`, at every offset and with every count, returns 0, with cursor, user buffer
and device unchanged. -/
theorem scull_read_after_trim (cfg : Config) (dev : scull_device) (hwf : wf cfg dev) :
    ∃ t, scull_trim cfg dev = some t ∧
      ∀ d, NoWriteSince cfg t.dev d →
        ∀ (kmalloc : Nat → Bool) (n : Nat) (buffer : List Byte) (count : Nat) (o : Int),
          scull_read cfg kmalloc n d buffer count o =
            some { retval := 0, buffer := buffer, f_pos := o, dev := d, nalloc := n } := by
  obtain ⟨k, hk⟩ := scull_trim_total hwf
  refine ⟨_, hk, fun d hd kmalloc n buffer count o => ?_⟩
  have hs : d.size = 0 := hd.size
  unfold scull_read
  rw [if_pos (by omega)]

/-- C12, at the scenario of the specification: after the device that holds "ABCDEF" is
truncated, reads return 0. -/
theorem scull_read_after_trim_witness :
    ∃ t, scull_trim smallConfig deviceABCDEF = some t ∧
      ∀ d, NoWriteSince smallConfig t.dev d →
        ∀ (kmalloc : Nat → Bool) (n : Nat) (buffer : List Byte) (count : Nat) (o : Int),
          scull_read smallConfig kmalloc n d buffer count o =
            some { retval := 0, buffer := buffer, f_pos := o, dev := d, nalloc := n } :=
  scull_read_after_trim smallConfig deviceABCDEF (by decide)

/-! ## The chain walk on chains that have to grow -/

/-- C16: with every allocation succeeding, `scull_follow` for Set index 1 on the zeroed
device returns `NULL` (after two successful allocations), and the chain from the head
then has one Set, not two. -/
theorem scull_follow_returns_null :
    scull_follow allocOk 0 emptyDevice 1 =
      some { qset := none, dev := { qsets := [zeroQset], size := 0 }, nalloc := 2 } ∧
    allocOk 0 = true ∧ allocOk 1 = true ∧
    ((scull_follow allocOk 0 emptyDevice 1).map (fun fr => fr.dev.qsets.length)) = some 1 := by
  decide

/-- C17: with every allocation succeeding, `scull_follow` for Set index 1 on the device
of the scenario (one Set, holding "ABCDEF") leaves a chain that is one zeroed Set: the
Set that was the chain is no longer in it. -/
theorem scull_follow_replaces_head :
    scull_follow allocOk 4 deviceABCDEF 1 =
      some { qset := none, dev := { qsets := [zeroQset], size := 6 }, nalloc := 5 } ∧
    deviceABCDEF.qsets = [{ quanta := some [some [65, 66, 67, 68], some [69, 70, 0, 0]] }] ∧
    [zeroQset].take deviceABCDEF.qsets.length ≠ deviceABCDEF.qsets ∧
    ¬ (∀ q ∈ deviceABCDEF.qsets, q ∈ [zeroQset]) := by
  decide

/-- C18: with every allocation succeeding, `scull_follow` for Set index 2 on the zeroed
device does not return: its second iteration reads `qset->next` with `qset = NULL`;
so does the `scull_write` of one byte at offset 2097152 (Set index 2 with the source's
configuration), the call that lines 180-187 make. -/
theorem scull_follow_null_dereference :
    scull_follow allocOk 0 emptyDevice 2 = none ∧
    scull_follow_loop allocOk 1 none { qsets := [zeroQset], size := 0 } 2 = none ∧
    scull_find defaultConfig 2097152 = some (2, 0, 0) ∧
    scull_write defaultConfig allocOk 0 emptyDevice [65] 1 2097152 = none := by
  decide

/-! ## What the chain walk returns -/

theorem scull_follow_loop_null (kmalloc : Nat → Bool) (k : Nat) (dev : scull_device)
    (n : Nat) (r : FollowResult) (h : scull_follow_loop kmalloc k none dev n = some r) :
    r.qset = none := by
  cases k with
  | zero =>
    simp only [scull_follow_loop, Option.some.injEq] at h
    subst h; rfl
  | succ k => simp [scull_follow_loop] at h

/-- When the loop returns a Set, it has walked `k` links of the chain it was given, has
requested no allocation and has left the device as it was. -/
theorem scull_follow_loop_qset (kmalloc : Nat → Bool) (k : Nat) :
    ∀ (i : Nat) (dev : scull_device) (n : Nat) (r : FollowResult) (j : Nat),
      i < dev.qsets.length → scull_follow_loop kmalloc k (some i) dev n = some r →
      r.qset = some j → j = i + k ∧ j < dev.qsets.length ∧ r.dev = dev ∧ r.nalloc = n := by
  induction k with
  | zero =>
    intro i dev n r j hi h hj
    simp only [scull_follow_loop, Option.some.injEq] at h
    subst h
    simp only [Option.some.injEq] at hj
    subst hj
    exact ⟨rfl, hi, rfl, rfl⟩
  | succ k ih =>
    intro i dev n r j hi h hj
    simp only [scull_follow_loop] at h
    by_cases h1 : i + 1 < dev.qsets.length
    · rw [if_pos h1] at h
      obtain ⟨e1, e2, e3, e4⟩ := ih (i + 1) dev n r j h1 h hj
      exact ⟨by omega, e2, e3, e4⟩
    · rw [if_neg h1] at h
      by_cases h2 : kmalloc n = true
      · rw [if_pos h2] at h
        have := scull_follow_loop_null _ _ _ _ _ h
        rw [this] at hj
        exact absurd hj (by simp)
      · rw [if_neg h2, Option.some.injEq] at h
        subst h
        exact absurd hj (by simp)

/-- When `scull_follow` returns a Set, the Set is at chain position `qset_idx` (read as
an unsigned `int`), and either nothing was allocated and the device is as it was, or
the chain was empty, the index is 0 and the Set is the newly allocated head. -/
theorem scull_follow_qset (kmalloc : Nat → Bool) (n : Nat) (dev : scull_device)
    (s : Int) (fr : FollowResult) (j : Nat)
    (h : scull_follow kmalloc n dev s = some fr) (hj : fr.qset = some j) :
    j = toUInt32 s ∧ j < fr.dev.qsets.length ∧
    ((fr.dev = dev ∧ fr.nalloc = n) ∨
      (dev.qsets = [] ∧ j = 0 ∧ kmalloc n = true ∧
        fr.dev = { qsets := [zeroQset], size := dev.size } ∧ fr.nalloc = n + 1)) := by
  unfold scull_follow at h
  split at h
  · rename_i hnil
    by_cases h1 : kmalloc n = true
    · rw [if_pos h1] at h
      obtain ⟨e1, e2, e3, e4⟩ := scull_follow_loop_qset kmalloc _ 0
        { qsets := [zeroQset], size := dev.size } (n + 1) fr j (by simp) h hj
      simp only [List.length_singleton] at e2
      refine ⟨by omega, by rw [e3]; simpa using e2, Or.inr ⟨hnil, by omega, h1, e3, e4⟩⟩
    · rw [if_neg h1, Option.some.injEq] at h
      subst h
      exact absurd hj (by simp)
  · rename_i q rest hcons
    obtain ⟨e1, e2, e3, e4⟩ := scull_follow_loop_qset kmalloc _ 0 dev n fr j
      (by rw [hcons]; simp) h hj
    exact ⟨by omega, by rw [e3]; exact e2, Or.inl ⟨e3, e4⟩⟩

theorem scull_follow_loop_dev (kmalloc : Nat → Bool) (k : Nat) :
    ∀ (q : Option Nat) (dev : scull_device) (n : Nat) (r : FollowResult),
      scull_follow_loop kmalloc k q dev n = some r →
      r.dev = dev ∨ r.dev = { qsets := [zeroQset], size := dev.size } ∨
        r.dev = { qsets := [], size := dev.size } := by
  induction k with
  | zero =>
    intro q dev n r h
    simp only [scull_follow_loop, Option.some.injEq] at h
    subst h; exact Or.inl rfl
  | succ k ih =>
    intro q dev n r h
    cases q with
    | none => simp [scull_follow_loop] at h
    | some i =>
      simp only [scull_follow_loop] at h
      by_cases h1 : i + 1 < dev.qsets.length
      · rw [if_pos h1] at h
        exact ih _ _ _ _ h
      · rw [if_neg h1] at h
        by_cases h2 : kmalloc n = true
        · rw [if_pos h2] at h
          rcases ih _ _ _ _ h with e | e | e
          · exact Or.inr (Or.inl e)
          · exact Or.inr (Or.inl e)
          · exact Or.inr (Or.inr e)
        · rw [if_neg h2, Option.some.injEq] at h
          subst h
          exact Or.inr (Or.inr rfl)

/-- The chain that `scull_follow` leaves is the chain it found, or one zeroed Set, or
empty. -/
theorem scull_follow_dev (kmalloc : Nat → Bool) (n : Nat) (dev : scull_device)
    (s : Int) (fr : FollowResult) (h : scull_follow kmalloc n dev s = some fr) :
    fr.dev = dev ∨ fr.dev = { qsets := [zeroQset], size := dev.size } ∨
      fr.dev = { qsets := [], size := dev.size } := by
  unfold scull_follow at h
  split at h
  · by_cases h1 : kmalloc n = true
    · rw [if_pos h1] at h
      rcases scull_follow_loop_dev _ _ _ _ _ _ h with e | e | e
      · exact Or.inr (Or.inl e)
      · exact Or.inr (Or.inl e)
      · exact Or.inr (Or.inr e)
    · rw [if_neg h1, Option.some.injEq] at h
      subst h
      exact Or.inr (Or.inr rfl)
  · exact scull_follow_loop_dev _ _ _ _ _ _ h

/-! ## What a write stores -/

theorem scull_write_copy_effect (cfg : Config) (dev : scull_device) (i : Nat)
    (quanta : List (Option (List Byte))) (quantum : List Byte) (n : Nat)
    (buffer : List Byte) (count : Nat) (o : Int) (b p : Int) (r : WriteResult)
    (h : scull_write_copy cfg dev i quanta quantum n buffer count o b p = some r) :
    0 ≤ p ∧ p.toNat + clampToQuantum cfg p count ≤ quantum.length ∧
    ∃ data, r.dev.qsets =
        (setQuanta dev i (quanta.set b.toNat (some (storeBytes quantum p.toNat data)))).qsets ∧
      ((r.retval = clampToQuantum cfg p count ∧ data = buffer.take (clampToQuantum cfg p count) ∧
          clampToQuantum cfg p count ≤ buffer.length) ∨
       (r.retval = -EFAULT ∧ data = buffer ∧ buffer.length < clampToQuantum cfg p count)) := by
  unfold scull_write_copy at h
  by_cases h1 : p < 0 ∨ quantum.length < p.toNat + clampToQuantum cfg p count
  · rw [if_pos h1] at h
    exact absurd h (by simp)
  · rw [if_neg h1] at h
    refine ⟨by omega, by omega, ?_⟩
    by_cases h2 : clampToQuantum cfg p count ≤ buffer.length
    · rw [if_pos h2, Option.some.injEq] at h
      subst h
      refine ⟨buffer.take (clampToQuantum cfg p count), ?_, Or.inl ⟨rfl, rfl, h2⟩⟩
      simp only [storeBytes, List.length_take, min_eq_left h2]
    · rw [if_neg h2, Option.some.injEq] at h
      subst h
      exact ⟨buffer, rfl, Or.inr ⟨rfl, rfl, by omega⟩⟩

theorem scull_write_quantum_effect (cfg : Config) (kmalloc : Nat → Bool) (dev : scull_device)
    (i : Nat) (quanta : List (Option (List Byte))) (n : Nat)
    (buffer : List Byte) (count : Nat) (o : Int) (b p : Int) (r : WriteResult)
    (h : scull_write_quantum cfg kmalloc dev i quanta n buffer count o b p = some r) :
    0 ≤ b ∧ ∃ slot, quanta.get? b.toNat = some slot ∧
      ((r.retval = -ENOMEM ∧ slot = none ∧ r.dev = setQuanta dev i quanta) ∨
       (0 ≤ p ∧ p.toNat + clampToQuantum cfg p count ≤ (quantumOf cfg slot).length ∧
        ∃ data, r.dev.qsets =
            (setQuanta dev i (quanta.set b.toNat
              (some (storeBytes (quantumOf cfg slot) p.toNat data)))).qsets ∧
          ((r.retval = clampToQuantum cfg p count ∧
              data = buffer.take (clampToQuantum cfg p count) ∧
              clampToQuantum cfg p count ≤ buffer.length) ∨
           (r.retval = -EFAULT ∧ data = buffer ∧
              buffer.length < clampToQuantum cfg p count)))) := by
  unfold scull_write_quantum at h
  by_cases h1 : b < 0
  · rw [if_pos h1] at h
    exact absurd h (by simp)
  · rw [if_neg h1] at h
    refine ⟨by omega, ?_⟩
    split at h
    · exact absurd h (by simp)
    · rename_i quantum hquantum
      exact ⟨some quantum, hquantum,
        Or.inr (scull_write_copy_effect _ _ _ _ _ _ _ _ _ _ _ _ h)⟩
    · rename_i hslot
      by_cases h2 : kmalloc n = true
      · rw [if_pos h2] at h
        exact ⟨none, hslot, Or.inr (scull_write_copy_effect _ _ _ _ _ _ _ _ _ _ _ _ h)⟩
      · rw [if_neg h2, Option.some.injEq] at h
        subst h
        exact ⟨none, hslot, Or.inl ⟨rfl, rfl, rfl⟩⟩

/-- What the part of `scull_write` after the walk leaves in the device: nothing new
(`-ENOMEM` for a `NULL` Set or a refused block array), or the block array without the
quantum (`-ENOMEM` for a refused quantum), or the block array with the quantum into
which the bytes were copied: all of the clamped count, or, with `-EFAULT`, the
accessible ones. -/
theorem scull_write_qset_effect (cfg : Config) (kmalloc : Nat → Bool) (fr : FollowResult)
    (buffer : List Byte) (count : Nat) (o : Int) (b p : Int) (r : WriteResult)
    (h : scull_write_qset cfg kmalloc fr buffer count o b p = some r) :
    (r.retval = -ENOMEM ∧ r.dev = fr.dev) ∨
    ∃ i q, fr.qset = some i ∧ fr.dev.qsets.get? i = some q ∧ 0 ≤ b ∧
      ∃ slot, (quantaOf cfg q).get? b.toNat = some slot ∧
        ((r.retval = -ENOMEM ∧ slot = none ∧ r.dev = setQuanta fr.dev i (quantaOf cfg q)) ∨
         (0 ≤ p ∧ p.toNat + clampToQuantum cfg p count ≤ (quantumOf cfg slot).length ∧
          ∃ data, r.dev.qsets =
              (setQuanta fr.dev i ((quantaOf cfg q).set b.toNat
                (some (storeBytes (quantumOf cfg slot) p.toNat data)))).qsets ∧
            ((r.retval = clampToQuantum cfg p count ∧
                data = buffer.take (clampToQuantum cfg p count) ∧
                clampToQuantum cfg p count ≤ buffer.length) ∨
             (r.retval = -EFAULT ∧ data = buffer ∧
                buffer.length < clampToQuantum cfg p count)))) := by
  unfold scull_write_qset at h
  split at h
  · simp only [Option.some.injEq] at h
    subst h
    exact Or.inl ⟨rfl, rfl⟩
  · rename_i i hi
    split at h
    · exact absurd h (by simp)
    · rename_i q hq
      split at h
      · rename_i quanta hquanta
        have hqo : quantaOf cfg q = quanta := by unfold quantaOf; rw [hquanta]
        obtain ⟨hb, slot, hslot, hrest⟩ :=
          scull_write_quantum_effect _ _ _ _ _ _ _ _ _ _ _ _ h
        exact Or.inr ⟨i, q, hi, hq, hb, slot, by rw [hqo]; exact hslot, by rw [hqo]; exact hrest⟩
      · rename_i hquanta
        have hqo : quantaOf cfg q = List.replicate cfg.scull_quanta_count.toNat none := by
          unfold quantaOf; rw [hquanta]
        by_cases h2 : kmalloc fr.nalloc = true
        · rw [if_pos h2] at h
          obtain ⟨hb, slot, hslot, hrest⟩ :=
            scull_write_quantum_effect _ _ _ _ _ _ _ _ _ _ _ _ h
          exact Or.inr ⟨i, q, hi, hq, hb, slot, by rw [hqo]; exact hslot,
            by rw [hqo]; exact hrest⟩
        · rw [if_neg h2, Option.some.injEq] at h
          subst h
          exact Or.inl ⟨rfl, rfl⟩

/-! ## Calls that reach the transfer -/

/-- For Set index 0 the walk returns the head, which it allocates when the chain is
empty. -/
theorem scull_follow_zero (kmalloc : Nat → Bool) (n : Nat) (dev : scull_device)
    (hk : kmalloc n = true ∨ dev.qsets ≠ []) :
    ∃ fr, scull_follow kmalloc n dev 0 = some fr ∧ fr.qset = some 0 := by
  unfold scull_follow
  have h0 : toUInt32 0 = 0 := by decide
  rw [h0]
  split
  · rename_i hnil
    rcases hk with hk | hk
    · rw [if_pos hk]
      exact ⟨_, rfl, rfl⟩
    · exact absurd hnil hk
  · exact ⟨_, rfl, rfl⟩

/-- In a well-formed device, when the walk has returned a Set and every allocation
succeeds, the rest of `scull_write` returns, and not with `-ENOMEM`. -/
theorem scull_write_qset_total {cfg : Config} (hv : cfg.valid) (kmalloc : Nat → Bool)
    (hk : ∀ j, kmalloc j = true) (fr : FollowResult) (hwf : wf cfg fr.dev) (i : Nat)
    (hi : fr.qset = some i) (hlen : i < fr.dev.qsets.length) (buffer : List Byte) (count : Nat)
    (o b p : Int) (hb0 : 0 ≤ b) (hb1 : b < cfg.scull_quanta_count) (hp0 : 0 ≤ p)
    (hp1 : p < cfg.scull_quantum_size) :
    ∃ r, scull_write_qset cfg kmalloc fr buffer count o b p = some r ∧ r.retval ≠ -ENOMEM := by
  have hcl := clampToQuantum_valid hv p hp0 hp1 count
  have hcopy : ∀ (quanta : List (Option (List Byte))) (quantum : List Byte) (m : Nat),
      quantum.length = cfg.scull_quantum_size.toNat →
      ∃ r, scull_write_copy cfg fr.dev i quanta quantum m buffer count o b p = some r ∧
        r.retval ≠ -ENOMEM := by
    intro quanta quantum m hql
    unfold scull_write_copy
    rw [if_neg (by omega)]
    by_cases h2 : clampToQuantum cfg p count ≤ buffer.length
    · rw [if_pos h2]
      refine ⟨_, rfl, ?_⟩
      show ((clampToQuantum cfg p count : Nat) : Int) ≠ -ENOMEM
      unfold ENOMEM; omega
    · rw [if_neg h2]
      refine ⟨_, rfl, ?_⟩
      show -EFAULT ≠ -ENOMEM
      decide
  have hquantum : ∀ (quanta : List (Option (List Byte))) (m : Nat),
      quanta.length = cfg.scull_quanta_count.toNat → (∀ slot ∈ quanta, wfSlot cfg slot) →
      ∃ r, scull_write_quantum cfg kmalloc fr.dev i quanta m buffer count o b p = some r ∧
        r.retval ≠ -ENOMEM := by
    intro quanta m hql hslots
    unfold scull_write_quantum
    rw [if_neg (by omega)]
    have hbl : b.toNat < quanta.length := by rw [hql]; omega
    obtain ⟨slot, hslot⟩ : ∃ slot, quanta.get? b.toNat = some slot :=
      ⟨quanta.get ⟨b.toNat, hbl⟩, List.get?_eq_get hbl⟩
    rw [hslot]
    cases slot with
    | none =>
      simp only
      rw [if_pos (hk m)]
      exact hcopy _ _ _ (List.length_replicate _ _)
    | some quantum =>
      simp only
      exact hcopy _ _ _ (hslots _ (List.get?_mem hslot))
  unfold scull_write_qset
  rw [hi]
  simp only
  obtain ⟨q, hq⟩ : ∃ q, fr.dev.qsets.get? i = some q :=
    ⟨fr.dev.qsets.get ⟨i, hlen⟩, List.get?_eq_get hlen⟩
  rw [hq]
  simp only
  cases hquanta : q.quanta with
  | none =>
    simp only
    rw [if_pos (hk _)]
    refine hquantum _ _ (List.length_replicate _ _) (fun slot hs => ?_)
    rw [List.eq_of_mem_replicate hs]
    trivial
  | some quanta =>
    simp only
    have hwq := hwf.1 q (List.get?_mem hq)
    unfold wfQset at hwq
    rw [hquanta] at hwq
    exact hquantum _ _ hwq.1 hwq.2

/-- A read below `size` from a Set, block array and quantum that are present comes to
the transfer. -/
theorem scull_read_reaches_copy (cfg : Config) (kmalloc : Nat → Bool) (n : Nat)
    (dev : scull_device) (buffer : List Byte) (count : Nat) (o : Int) (s b p : Int)
    (q : scull_qset) (quanta : List (Option (List Byte))) (quantum : List Byte)
    (hlt : toUInt64 o < dev.size) (hfind : scull_find cfg o = some (s, b, p))
    (hs0 : 0 ≤ s) (hs32 : s < 2 ^ 32) (hb0 : 0 ≤ b)
    (hq : dev.qsets.get? s.toNat = some q) (hquanta : q.quanta = some quanta)
    (hquantum : quanta.get? b.toNat = some (some quantum)) :
    scull_read cfg kmalloc n dev buffer count o =
      scull_read_copy cfg dev n quantum buffer (clampToSize dev count o) o p := by
  have hslen : s.toNat < dev.qsets.length := by
    rw [List.get?_eq_getElem?] at hq
    exact (List.getElem?_eq_some.mp hq).1
  unfold scull_read
  rw [if_neg (by omega), hfind]
  simp only
  rw [scull_follow_present kmalloc n dev s hs0 hs32 hslen]
  simp only [scull_read_qset, hq, hquanta, hquantum, if_neg (not_lt.mpr hb0)]

/-! ## Transfer failure -/

/-- C14: `-EFAULT` is not `-ENOMEM`, and in a well-formed device, at an offset `o ≥ 0`:
a `scull_read` that comes to `copy_to_user` (`o < size`; Set, block array and quantum
present) with fewer accessible bytes in the user buffer than the clamped count returns
`-EFAULT` and leaves cursor and `size` as they were; a `scull_write` that comes to
`copy_from_user` (the walk returns a Set, the allocations succeed) with fewer accessible
bytes than the clamped count returns `-EFAULT` and leaves cursor and `size` as they
were. -/
theorem scull_transfer_failure (cfg : Config) (hv : cfg.valid) (kmalloc : Nat → Bool)
    (n : Nat) (dev : scull_device) (hwf : wf cfg dev) (buffer : List Byte) (count : Nat)
    (o : Int) (h0 : 0 ≤ o) (s b p : Int) (hfind : scull_find cfg o = some (s, b, p)) :
    -EFAULT ≠ -ENOMEM ∧
    (∀ quantum, o < dev.size → quantumAt dev s b = some quantum →
      buffer.length < clampToQuantum cfg p (clampToSize dev count o) →
      ∃ r, scull_read cfg kmalloc n dev buffer count o = some r ∧
        r.retval = -EFAULT ∧ r.f_pos = o ∧ r.dev.size = dev.size) ∧
    (∀ fr i, scull_follow kmalloc n dev s = some fr → fr.qset = some i →
      (∀ j, kmalloc j = true) → buffer.length < clampToQuantum cfg p count →
      ∃ r, scull_write cfg kmalloc n dev buffer count o = some r ∧
        r.retval = -EFAULT ∧ r.f_pos = o ∧ r.dev.size = dev.size) := by
  obtain ⟨hb0, hb1, hp0, hp1⟩ := scull_find_bounds hv o
  have hfv := scull_find_valid hv o h0
  rw [hfind, Option.some.injEq, Prod.mk.injEq, Prod.mk.injEq] at hfv
  obtain ⟨hs, hb, hp⟩ := hfv
  rw [← hb] at hb0 hb1
  rw [← hp] at hp0 hp1
  have hs32 : s < 2 ^ 32 := by
    have := toInt32_lt (o / (cfg.scull_quanta_count * cfg.scull_quantum_size))
    rw [← hs] at this
    omega
  refine ⟨by decide, ?_, ?_⟩
  · intro quantum hlt hq hshort
    obtain ⟨hs0, -, q, quanta, hget, hquanta, hquantum⟩ := quantumAt_eq_some hq
    have hqlen := wf_quantum_length hwf hget hquanta hquantum
    have hcl := clampToQuantum_valid hv p hp0 hp1 (clampToSize dev count o)
    have hu := toUInt64_eq o h0 (by have := hwf.2; omega)
    rw [scull_read_reaches_copy cfg kmalloc n dev buffer count o s b p q quanta quantum
      (by omega) hfind hs0 hs32 hb0 hget hquanta hquantum]
    unfold scull_read_copy
    rw [if_neg (by omega), if_neg (by omega)]
    exact ⟨_, rfl, rfl, rfl, rfl⟩
  · intro fr i hfr hi hk hshort
    obtain ⟨-, hlen, -⟩ := scull_follow_qset kmalloc n dev s fr i hfr hi
    obtain ⟨r, hr, hne⟩ := scull_write_qset_total hv kmalloc hk fr
      (scull_follow_wf cfg _ _ _ _ _ hwf hfr) i hi hlen buffer count o b p hb0 hb1 hp0 hp1
    have hw : scull_write cfg kmalloc n dev buffer count o = some r := by
      unfold scull_write
      rw [hfind]
      simp only
      rw [hfr]
      exact hr
    have hsz := scull_follow_size _ _ _ _ _ hfr
    refine ⟨r, hw, ?_⟩
    rcases scull_write_qset_shape _ _ _ _ _ _ _ _ _ hr with
      ⟨h1, -, -⟩ | ⟨h1, h2, h3, -⟩ | ⟨-, -, -, h4⟩
    · exact absurd h1 hne
    · exact ⟨h1, h2, by rw [h3, hsz]⟩
    · omega

/-- C14, at the scenario of the specification: in the device that holds "ABCDEF", with
no accessible byte at the user pointer, a read and a write of 2 bytes at offset 4 return
`-EFAULT` and leave cursor and `size` as they were. -/
theorem scull_transfer_failure_witness :
    -EFAULT ≠ -ENOMEM ∧
    (∃ r, scull_read smallConfig allocOk 4 deviceABCDEF [] 2 4 = some r ∧
        r.retval = -EFAULT ∧ r.f_pos = 4 ∧ r.dev.size = deviceABCDEF.size) ∧
    (∃ r, scull_write smallConfig allocOk 4 deviceABCDEF [] 2 4 = some r ∧
        r.retval = -EFAULT ∧ r.f_pos = 4 ∧ r.dev.size = deviceABCDEF.size) :=
  have h := scull_transfer_failure smallConfig (by decide) allocOk 4 deviceABCDEF (by decide)
    [] 2 4 (by decide) 0 1 0 (by decide)
  ⟨h.1, h.2.1 [69, 70, 0, 0] (by decide) (by decide) (by decide),
    h.2.2 { qset := some 0, dev := deviceABCDEF, nalloc := 4 } 0 (by decide) rfl
      (fun _ => rfl) (by decide)⟩

/-! ## Round trip inside the first Set -/

theorem storeBytes_length (quantum : List Byte) (p : Nat) (data : List Byte)
    (h : p + data.length ≤ quantum.length) :
    (storeBytes quantum p data).length = quantum.length := by
  simp only [storeBytes, List.length_append, List.length_take, List.length_drop]
  omega

theorem storeBytes_read (quantum : List Byte) (p : Nat) (data : List Byte)
    (h : p ≤ quantum.length) :
    ((storeBytes quantum p data).drop p).take data.length = data := by
  unfold storeBytes
  rw [List.append_assoc, List.drop_left' (by rw [List.length_take]; omega),
    List.take_left' rfl]

theorem get?_set_self {α : Type} (l : List α) (i : Nat) (a : α) (h : i < l.length) :
    (l.set i a).get? i = some a := by
  rw [List.get?_eq_getElem?, List.getElem?_set]
  simp [h]

theorem get?_lt_length {α : Type} {l : List α} {i : Nat} {a : α} (h : l.get? i = some a) :
    i < l.length := by
  rw [List.get?_eq_getElem?] at h
  exact (List.getElem?_eq_some.mp h).1

/-- C20: in every reachable state, for a valid configuration, an offset
`0 ≤ o < quanta_count * quantum_size` and `N ≤ quantum_size - o mod quantum_size`
bytes accessible in the user buffer, with every allocation succeeding, `scull_write` of
`N` bytes at `o` returns `N`, and a following `scull_read` of `N` bytes at `o` (into a
user buffer with `N` accessible bytes) returns `N` and delivers exactly the bytes
written. -/
theorem scull_write_read_first_set (cfg : Config) (hv : cfg.valid) (dev : scull_device)
    (hr : Reachable cfg dev) (kmalloc : Nat → Bool) (hk : ∀ j, kmalloc j = true) (n : Nat)
    (wbuf : List Byte) (N : Nat) (o : Int) (h0 : 0 ≤ o)
    (hQ : o < cfg.scull_quanta_count * cfg.scull_quantum_size)
    (hN : (N : Int) ≤ cfg.scull_quantum_size - o % cfg.scull_quantum_size)
    (hw : N ≤ wbuf.length) (kmalloc1 : Nat → Bool) (n1 : Nat) (rbuf : List Byte)
    (hrb : N ≤ rbuf.length) :
    ∃ w, scull_write cfg kmalloc n dev wbuf N o = some w ∧ w.retval = N ∧
      ∃ r, scull_read cfg kmalloc1 n1 w.dev rbuf N o = some r ∧ r.retval = N ∧
        r.buffer.take N = wbuf.take N := by
  have hwf := hr.wf
  obtain ⟨hb0, hb1, hp0, hp1⟩ := scull_find_bounds hv o
  have hq31 := hv.quantum_lt
  have hQ31 := hv.2.2
  have hfind := scull_find_valid hv o h0
  have hs : o / (cfg.scull_quanta_count * cfg.scull_quantum_size) = 0 :=
    Int.ediv_eq_zero_of_lt h0 hQ
  rw [hs, toInt32_eq 0 (by decide) (by decide)] at hfind
  have hpe := @scull_find_pos_eq cfg o
  set b := o % (cfg.scull_quanta_count * cfg.scull_quantum_size) / cfg.scull_quantum_size
  set p := o % (cfg.scull_quanta_count * cfg.scull_quantum_size) % cfg.scull_quantum_size
  have hclN : ∀ c : Nat, N ≤ c → clampToQuantum cfg p (min N c) = N := by
    intro c hc
    rw [clampToQuantum_valid hv p hp0 hp1]
    omega
  have hcl : clampToQuantum cfg p N = N := by
    have := hclN N le_rfl
    rwa [min_self] at this
  -- the write
  obtain ⟨fr, hfr, hi⟩ := scull_follow_zero kmalloc n dev (Or.inl (hk n))
  obtain ⟨-, hlen, -⟩ := scull_follow_qset kmalloc n dev 0 fr 0 hfr hi
  have hwffr := scull_follow_wf cfg _ _ _ _ _ hwf hfr
  obtain ⟨w, hwq, hne⟩ := scull_write_qset_total hv kmalloc hk fr hwffr 0 hi hlen wbuf N o b p
    hb0 hb1 hp0 hp1
  have hwrite : scull_write cfg kmalloc n dev wbuf N o = some w := by
    unfold scull_write
    rw [hfind]
    simp only
    rw [hfr]
    exact hwq
  have hwfw := scull_write_wf _ _ _ _ _ _ _ _ hwf hwrite
  have hu := toUInt64_toInt64 (o + N) (by omega) (by omega)
  -- its return value and the size it leaves
  have hret : w.retval = N ∧ (o + N : Int) ≤ w.dev.size := by
    rcases scull_write_qset_shape _ _ _ _ _ _ _ _ _ hwq with
      ⟨h1, -, -⟩ | ⟨-, -, -, h4⟩ | ⟨h1, -, h3, -⟩
    · exact absurd h1 hne
    · rw [hcl] at h4; omega
    · rw [hcl] at h1 h3
      refine ⟨h1, ?_⟩
      rw [h3]
      split_ifs with h5 <;> omega
  -- what it stored
  obtain ⟨q1, quanta1, quantum1, hq1, hquanta1, hquantum1, hdata, hlen1⟩ :
      ∃ q1 quanta1 quantum1, w.dev.qsets.get? 0 = some q1 ∧ q1.quanta = some quanta1 ∧
        quanta1.get? b.toNat = some (some quantum1) ∧
        (quantum1.drop p.toNat).take N = wbuf.take N ∧
        p.toNat + N ≤ quantum1.length := by
    rcases scull_write_qset_effect _ _ _ _ _ _ _ _ _ hwq with
      ⟨h1, -⟩ | ⟨i, q, hi1, hq, -, slot, hslot, hcase⟩
    · exact absurd h1 hne
    · rw [hi, Option.some.injEq] at hi1
      subst hi1
      rcases hcase with ⟨h1, -, -⟩ | ⟨-, hpl, data, hdev, hd⟩
      · exact absurd h1 hne
      · rcases hd with ⟨-, hd, -⟩ | ⟨-, -, h4⟩
        · rw [hcl] at hd hpl
          have hdl : data.length = N := by rw [hd, List.length_take]; omega
          refine ⟨{ quanta := some ((quantaOf cfg q).set b.toNat
              (some (storeBytes (quantumOf cfg slot) p.toNat data))) },
            (quantaOf cfg q).set b.toNat (some (storeBytes (quantumOf cfg slot) p.toNat data)),
            storeBytes (quantumOf cfg slot) p.toNat data, ?_, rfl,
            get?_set_self _ _ _ (get?_lt_length hslot), ?_, ?_⟩
          · rw [hdev]
            exact get?_set_self _ _ _ hlen
          · have := storeBytes_read (quantumOf cfg slot) p.toNat data (by omega)
            rw [hdl] at this
            rw [this, hd]
          · rw [storeBytes_length _ _ _ (by omega)]
            exact hpl
        · rw [hcl] at h4; omega
  refine ⟨w, hwrite, hret.1, ?_⟩
  -- the read
  by_cases hsz : w.dev.size ≤ toUInt64 o
  · have huo := toUInt64_eq o h0 (by omega)
    have hN0 : N = 0 := by omega
    subst hN0
    refine ⟨_, by unfold scull_read; rw [if_pos hsz], rfl, ?_⟩
    simp
  · have hrd := scull_read_reaches_copy cfg kmalloc1 n1 w.dev rbuf N o 0 b p q1 quanta1
      quantum1 (by omega) hfind le_rfl (by decide) hb0 hq1 hquanta1 hquantum1
    have hcs : clampToSize w.dev N o = min N (w.dev.size - o.toNat) :=
      clampToSize_eq w.dev N o h0 (by omega)
    have hcl2 : clampToQuantum cfg p (clampToSize w.dev N o) = N := by
      rw [hcs]
      exact hclN _ (by omega)
    rw [hrd]
    unfold scull_read_copy
    rw [hcl2, if_neg (by omega), if_pos hrb]
    refine ⟨_, rfl, rfl, ?_⟩
    show ((quantum1.drop p.toNat).take N ++ rbuf.drop N).take N = wbuf.take N
    rw [List.take_left' (by rw [List.length_take, List.length_drop]; omega), hdata]

/-- C20, at an instance: in the device of the scenario (reachable), writing "XY" at
offset 2 returns 2, and reading 2 bytes at offset 2 then delivers "XY". -/
theorem scull_write_read_first_set_witness :
    ∃ w, scull_write smallConfig allocOk 4 deviceABCDEF [88, 89] 2 2 = some w ∧ w.retval = 2 ∧
      ∃ r, scull_read smallConfig allocOk 4 w.dev [0, 0] 2 2 = some r ∧ r.retval = 2 ∧
        r.buffer.take 2 = [88, 89] :=
  scull_write_read_first_set smallConfig (by decide) deviceABCDEF reachable_deviceABCDEF
    allocOk (fun _ => rfl) 4 [88, 89] 2 2 (by decide) (by decide) (by decide) (by decide)
    allocOk 4 [0, 0] (by decide)

/-! ## The outcomes of a write and of a read -/

/-- The outcomes of a call of `scull_write` that returns: (A) `-ENOMEM` with the device
as the walk left it; (B) `-ENOMEM` for a refused quantum, with the block array in
place; (C) the clamped count, the bytes stored, `size` raised to the new cursor;
(D) `-EFAULT`, the accessible bytes stored, `size` and cursor as before. -/
theorem scull_write_cases (cfg : Config) (kmalloc : Nat → Bool) (n : Nat)
    (dev : scull_device) (buffer : List Byte) (count : Nat) (o : Int) (r : WriteResult)
    (h : scull_write cfg kmalloc n dev buffer count o = some r) :
    ∃ s b p fr, scull_find cfg o = some (s, b, p) ∧ scull_follow kmalloc n dev s = some fr ∧
      ((r.retval = -ENOMEM ∧ r.dev = fr.dev) ∨
       ∃ i q slot, fr.qset = some i ∧ fr.dev.qsets.get? i = some q ∧ 0 ≤ b ∧
        (quantaOf cfg q).get? b.toNat = some slot ∧
        ((r.retval = -ENOMEM ∧ slot = none ∧ r.dev = setQuanta fr.dev i (quantaOf cfg q)) ∨
         (0 ≤ p ∧ p.toNat + clampToQuantum cfg p count ≤ (quantumOf cfg slot).length ∧
          ∃ data, r.dev.qsets =
              (setQuanta fr.dev i ((quantaOf cfg q).set b.toNat
                (some (storeBytes (quantumOf cfg slot) p.toNat data)))).qsets ∧
            ((r.retval = clampToQuantum cfg p count ∧
                data = buffer.take (clampToQuantum cfg p count) ∧
                clampToQuantum cfg p count ≤ buffer.length ∧
                r.dev.size =
                  (if dev.size < toUInt64 (toInt64 (o + clampToQuantum cfg p count))
                   then toUInt64 (toInt64 (o + clampToQuantum cfg p count))
                   else dev.size)) ∨
             (r.retval = -EFAULT ∧ data = buffer ∧
                buffer.length < clampToQuantum cfg p count ∧ r.dev.size = dev.size))))) := by
  unfold scull_write at h
  split at h
  · exact absurd h (by simp)
  · rename_i s b p hfind
    split at h
    · exact absurd h (by simp)
    · rename_i fr hfr
      have hsz := scull_follow_size _ _ _ _ _ hfr
      refine ⟨s, b, p, fr, hfind, hfr, ?_⟩
      have hshape := scull_write_qset_shape _ _ _ _ _ _ _ _ _ h
      rcases scull_write_qset_effect _ _ _ _ _ _ _ _ _ h with
        h1 | ⟨i, q, hi, hq, hb, slot, hslot, hcase⟩
      · exact Or.inl h1
      · refine Or.inr ⟨i, q, slot, hi, hq, hb, hslot, ?_⟩
        rcases hcase with h1 | ⟨hp, hpl, data, hdev, hd⟩
        · exact Or.inl h1
        · refine Or.inr ⟨hp, hpl, data, hdev, ?_⟩
          rcases hd with ⟨e1, e2, e3⟩ | ⟨e1, e2, e3⟩
          · refine Or.inl ⟨e1, e2, e3, ?_⟩
            rcases hshape with ⟨g1, -, -⟩ | ⟨g1, -, -, -⟩ | ⟨-, -, g3, -⟩
            · rw [e1] at g1; unfold ENOMEM at g1; omega
            · rw [e1] at g1; unfold EFAULT at g1; omega
            · rw [g3, hsz]
          · refine Or.inr ⟨e1, e2, e3, ?_⟩
            rcases hshape with ⟨-, -, g3⟩ | ⟨-, -, g3, -⟩ | ⟨g1, -, -, -⟩
            · rw [g3, hsz]
            · rw [g3, hsz]
            · rw [e1] at g1; unfold EFAULT at g1; omega

theorem scull_read_copy_cases (cfg : Config) (dev : scull_device) (n : Nat)
    (quantum buffer : List Byte) (count : Nat) (o p : Int) (r : ReadResult)
    (h : scull_read_copy cfg dev n quantum buffer count o p = some r) :
    r.retval = -EFAULT ∨
    ∃ c : Nat, r.retval = c ∧ 0 ≤ p ∧ p.toNat + c ≤ quantum.length ∧ c ≤ buffer.length ∧
      r.buffer = (quantum.drop p.toNat).take c ++ buffer.drop c := by
  unfold scull_read_copy at h
  by_cases h1 : p < 0 ∨ quantum.length < p.toNat + clampToQuantum cfg p count
  · rw [if_pos h1] at h
    exact absurd h (by simp)
  · rw [if_neg h1] at h
    by_cases h2 : clampToQuantum cfg p count ≤ buffer.length
    · rw [if_pos h2, Option.some.injEq] at h
      subst h
      exact Or.inr ⟨_, rfl, by omega, by omega, h2, rfl⟩
    · rw [if_neg h2, Option.some.injEq] at h
      subst h
      exact Or.inl rfl

/-- A call of `scull_read` that returns a positive count has walked to a Set that is
present, with block array and quantum, and delivers bytes of that quantum from the
position on. -/
theorem scull_read_cases (cfg : Config) (kmalloc : Nat → Bool) (n : Nat) (dev : scull_device)
    (buffer : List Byte) (count : Nat) (o : Int) (r : ReadResult)
    (h : scull_read cfg kmalloc n dev buffer count o = some r) :
    r.retval ≤ 0 ∨
    ∃ s b p fr i q quanta quantum, ∃ c : Nat,
      toUInt64 o < dev.size ∧ scull_find cfg o = some (s, b, p) ∧
      scull_follow kmalloc n dev s = some fr ∧ fr.qset = some i ∧
      fr.dev.qsets.get? i = some q ∧ q.quanta = some quanta ∧ 0 ≤ b ∧
      quanta.get? b.toNat = some (some quantum) ∧
      r.retval = c ∧ 0 ≤ p ∧ p.toNat + c ≤ quantum.length ∧ c ≤ buffer.length ∧
      r.buffer = (quantum.drop p.toNat).take c ++ buffer.drop c := by
  unfold scull_read at h
  by_cases h1 : dev.size ≤ toUInt64 o
  · rw [if_pos h1, Option.some.injEq] at h
    subst h; exact Or.inl le_rfl
  · rw [if_neg h1] at h
    split at h
    · exact absurd h (by simp)
    · rename_i s b p hfind
      split at h
      · exact absurd h (by simp)
      · rename_i fr hfr
        unfold scull_read_qset at h
        split at h
        · simp only [Option.some.injEq] at h
          subst h; exact Or.inl le_rfl
        · rename_i i hi
          split at h
          · exact absurd h (by simp)
          · rename_i q hq
            split at h
            · simp only [Option.some.injEq] at h
              subst h; exact Or.inl le_rfl
            · rename_i quanta hquanta
              by_cases hb : b < 0
              · rw [if_pos hb] at h
                exact absurd h (by simp)
              · rw [if_neg hb] at h
                split at h
                · exact absurd h (by simp)
                · simp only [Option.some.injEq] at h
                  subst h; exact Or.inl le_rfl
                · rename_i quantum hquantum
                  rcases scull_read_copy_cases _ _ _ _ _ _ _ _ _ h with e | ⟨c, e⟩
                  · left; rw [e]; decide
                  · exact Or.inr ⟨s, b, p, fr, i, q, quanta, quantum, c, by omega, hfind, hfr,
                      hi, hq, hquanta, by omega, hquantum, e⟩

/-! ## Reachable states when every allocation succeeds -/

theorem ReachableWith.reachable {cfg : Config} {A : (Nat → Bool) → Prop} {P : Int → Prop}
    {dev : scull_device} (h : ReachableWith cfg A P dev) : Reachable cfg dev := by
  induction h with
  | init => exact Reachable.init
  | write kmalloc n dev buffer count f_pos r _ _ _ h0 h63 hc hw ih =>
    exact Reachable.write kmalloc n dev buffer count f_pos r ih h0 h63 hc hw
  | read kmalloc n dev buffer count f_pos r _ _ h0 h63 hc hr ih =>
    exact Reachable.read kmalloc n dev buffer count f_pos r ih h0 h63 hc hr
  | trim dev t _ ht ih => exact Reachable.trim dev t ih ht

/-- Under a valid configuration, for a non-negative offset whose Set index is below
`2 ^ 31`, the results of `scull_find` are the Set index, the block index and the
position, and add up to the offset. -/
theorem scull_find_no_wrap {cfg : Config} (hv : cfg.valid) (o : Int) (h0 : 0 ≤ o)
    (hs : o / (cfg.scull_quanta_count * cfg.scull_quantum_size) < 2 ^ 31) (s b p : Int)
    (hfind : scull_find cfg o = some (s, b, p)) :
    s = o / (cfg.scull_quanta_count * cfg.scull_quantum_size) ∧ 0 ≤ s ∧
    o = s * (cfg.scull_quanta_count * cfg.scull_quantum_size) + b * cfg.scull_quantum_size + p ∧
    0 ≤ b ∧ b < cfg.scull_quanta_count ∧ 0 ≤ p ∧ p < cfg.scull_quantum_size := by
  obtain ⟨hb0, hb1, hp0, hp1⟩ := scull_find_bounds hv o
  have hQ := hv.qset_pos
  have hs0 : 0 ≤ o / (cfg.scull_quanta_count * cfg.scull_quantum_size) :=
    Int.ediv_nonneg h0 (le_of_lt hQ)
  have hfv := scull_find_valid hv o h0
  rw [hfind, Option.some.injEq, Prod.mk.injEq, Prod.mk.injEq,
    toInt32_eq _ (by omega) hs] at hfv
  obtain ⟨e1, e2, e3⟩ := hfv
  subst e1 e2 e3
  refine ⟨rfl, hs0, ?_, hb0, hb1, hp0, hp1⟩
  have e1 := Int.ediv_add_emod o (cfg.scull_quanta_count * cfg.scull_quantum_size)
  have e2 := Int.ediv_add_emod
    (o % (cfg.scull_quanta_count * cfg.scull_quantum_size)) cfg.scull_quantum_size
  linear_combination -e1 - e2

theorem scull_follow_loop_nonempty (kmalloc : Nat → Bool) (hk : ∀ j, kmalloc j = true)
    (k : Nat) : ∀ (q : Option Nat) (dev : scull_device) (n : Nat) (r : FollowResult),
      dev.qsets ≠ [] → scull_follow_loop kmalloc k q dev n = some r → r.dev.qsets ≠ [] := by
  induction k with
  | zero =>
    intro q dev n r hne h
    simp only [scull_follow_loop, Option.some.injEq] at h
    subst h; exact hne
  | succ k ih =>
    intro q dev n r hne h
    cases q with
    | none => simp [scull_follow_loop] at h
    | some i =>
      simp only [scull_follow_loop] at h
      by_cases h1 : i + 1 < dev.qsets.length
      · rw [if_pos h1] at h
        exact ih _ _ _ _ hne h
      · rw [if_neg h1, if_pos (hk n)] at h
        exact ih _ _ _ _ (by simp) h

/-- When every allocation succeeds, the walk leaves a chain that is not empty. -/
theorem scull_follow_nonempty (kmalloc : Nat → Bool) (hk : ∀ j, kmalloc j = true) (n : Nat)
    (dev : scull_device) (s : Int) (fr : FollowResult)
    (h : scull_follow kmalloc n dev s = some fr) : fr.dev.qsets ≠ [] := by
  unfold scull_follow at h
  split at h
  · rw [if_pos (hk n)] at h
    exact scull_follow_loop_nonempty kmalloc hk _ _ _ _ _ (by simp) h
  · rename_i q rest hcons
    exact scull_follow_loop_nonempty kmalloc hk _ _ _ _ _ (by rw [hcons]; simp) h

/-- The walk leaves a chain of at most one Set when it found one of at most one Set. -/
theorem scull_follow_length (kmalloc : Nat → Bool) (n : Nat) (dev : scull_device)
    (s : Int) (fr : FollowResult) (h : scull_follow kmalloc n dev s = some fr)
    (hlen : dev.qsets.length ≤ 1) : fr.dev.qsets.length ≤ 1 := by
  rcases scull_follow_dev _ _ _ _ _ h with e | e | e <;> rw [e]
  · exact hlen
  · simp
  · simp

/-- The chain that a write leaves is as long as the chain that its walk left. -/
theorem scull_write_length (cfg : Config) (kmalloc : Nat → Bool) (n : Nat)
    (dev : scull_device) (buffer : List Byte) (count : Nat) (o : Int) (r : WriteResult)
    (h : scull_write cfg kmalloc n dev buffer count o = some r) :
    ∃ s b p fr, scull_find cfg o = some (s, b, p) ∧ scull_follow kmalloc n dev s = some fr ∧
      r.dev.qsets.length = fr.dev.qsets.length := by
  obtain ⟨s, b, p, fr, hfind, hfr, hcase⟩ := scull_write_cases _ _ _ _ _ _ _ _ h
  refine ⟨s, b, p, fr, hfind, hfr, ?_⟩
  rcases hcase with ⟨-, e⟩ | ⟨i, q, slot, -, -, -, -, ⟨-, -, e⟩ | ⟨-, -, data, e, -⟩⟩
  · rw [e]
  · rw [e]; simp [setQuanta]
  · rw [e]; simp [setQuanta]

/-- C19, as amended: for a valid configuration, in every state reachable from the
zeroed device by `scull_write`, `scull_read` and `scull_trim` calls with every
allocation succeeding and every write at an offset whose Set index
`o / (quanta_count * quantum_size)` is below `2 ^ 31`, the chain holds at most one Set,
`size > 0` implies that the head Set is present, and
`size ≤ quanta_count * quantum_size`. -/
theorem reachable_one_set (cfg : Config) (hv : cfg.valid) (dev : scull_device)
    (h : ReachableWith cfg (fun kmalloc => ∀ j, kmalloc j = true)
      (fun o => o / (cfg.scull_quanta_count * cfg.scull_quantum_size) < 2 ^ 31) dev) :
    dev.qsets.length ≤ 1 ∧ (0 < dev.size → dev.qsets ≠ []) ∧
    (dev.size : Int) ≤ cfg.scull_quanta_count * cfg.scull_quantum_size := by
  induction h with
  | init => exact ⟨by decide, by decide, le_of_lt hv.qset_pos⟩
  | write kmalloc n dev buffer count o r _ hA hP h0 h63 hc hw ih =>
    have hk : ∀ j, kmalloc j = true := hA
    have hP1 : o / (cfg.scull_quanta_count * cfg.scull_quantum_size) < 2 ^ 31 := hP
    obtain ⟨ih1, ih2, ih3⟩ := ih
    obtain ⟨s, b, p, fr, hfind, hfr, hcase⟩ := scull_write_cases _ _ _ _ _ _ _ _ hw
    have hfl := scull_follow_length _ _ _ _ _ hfr ih1
    have hfne := scull_follow_nonempty kmalloc hk _ _ _ _ hfr
    have hfsz := scull_follow_size _ _ _ _ _ hfr
    have hflen : 0 < fr.dev.qsets.length := List.length_pos.mpr hfne
    have hlen : r.dev.qsets.length = fr.dev.qsets.length := by
      rcases hcase with ⟨-, e⟩ | ⟨i, q, slot, -, -, -, -, ⟨-, -, e⟩ | ⟨-, -, data, e, -⟩⟩
      · rw [e]
      · rw [e]; simp [setQuanta]
      · rw [e]; simp [setQuanta]
    refine ⟨by omega, fun _ => List.length_pos.mp (by omega), ?_⟩
    rcases hcase with ⟨-, e⟩ | ⟨i, q, slot, hi, -, -, -, ⟨-, -, e⟩ | ⟨-, -, data, -, hd⟩⟩
    · rw [e, hfsz]; exact ih3
    · rw [e]
      show ((fr.dev.size : Nat) : Int) ≤ _
      rw [hfsz]; exact ih3
    · rcases hd with ⟨-, -, -, e⟩ | ⟨-, -, -, e⟩
      · obtain ⟨hi0, hil, -⟩ := scull_follow_qset _ _ _ _ _ _ hfr hi
        obtain ⟨es, hs0, eo, hb0, hb1, hp0, hp1⟩ := scull_find_no_wrap hv o h0 hP1 s b p hfind
        have hs32 := toUInt32_eq s hs0 (by omega)
        have hsz : s = 0 := by omega
        have hq31 := hv.quantum_lt
        have hcl := clampToQuantum_valid hv p hp0 hp1 count
        have hbq : (b + 1) * cfg.scull_quantum_size
            ≤ cfg.scull_quanta_count * cfg.scull_quantum_size :=
          Int.mul_le_mul_of_nonneg_right (by omega) (le_of_lt hv.1)
        have hQ31 := hv.2.2
        rw [hsz] at eo
        have hu := toUInt64_toInt64 (o + clampToQuantum cfg p count) (by omega) (by omega)
        rw [e]
        split_ifs with h5
        · rw [hu]
          have : (b + 1) * cfg.scull_quantum_size
              = b * cfg.scull_quantum_size + cfg.scull_quantum_size := by ring
          omega
        · exact ih3
      · rw [e]; exact ih3
  | read kmalloc n dev buffer count o r _ hA h0 h63 hc hr ih =>
    have hk : ∀ j, kmalloc j = true := hA
    obtain ⟨ih1, ih2, ih3⟩ := ih
    rcases scull_read_dev _ _ _ _ _ _ _ _ hr with ⟨e, -⟩ | ⟨s, b, p, fr, -, hfr, e, -⟩
    · rw [e]; exact ⟨ih1, ih2, ih3⟩
    · rw [e]
      refine ⟨scull_follow_length _ _ _ _ _ hfr ih1,
        fun _ => scull_follow_nonempty kmalloc hk _ _ _ _ hfr, ?_⟩
      rw [scull_follow_size _ _ _ _ _ hfr]; exact ih3
  | trim dev t _ ht ih =>
    unfold scull_trim at ht
    split at ht
    · exact absurd ht (by simp)
    · simp only [Option.some.injEq] at ht
      subst ht
      exact ⟨Nat.zero_le 1, fun h0 => absurd h0 (lt_irrefl 0), le_of_lt hv.qset_pos⟩

theorem reachableWith_deviceABCDEF (A : (Nat → Bool) → Prop) (P : Int → Prop)
    (hA : A allocOk) (h0 : P 0) (h4 : P 4) : ReachableWith smallConfig A P deviceABCDEF :=
  ReachableWith.write allocOk 3
    { qsets := [{ quanta := some [some [65, 66, 67, 68], none] }], size := 4 } [69, 70] 2 4
    { retval := 2, f_pos := 6, dev := deviceABCDEF, nalloc := 4 }
    (ReachableWith.write allocOk 0 emptyDevice [65, 66, 67, 68, 69, 70] 6 0
      { retval := 4, f_pos := 4,
        dev := { qsets := [{ quanta := some [some [65, 66, 67, 68], none] }], size := 4 },
        nalloc := 3 }
      ReachableWith.init hA h0 (by decide) (by decide) (by decide) (by decide))
    hA h4 (by decide) (by decide) (by decide) (by decide)

/-- C19, at the scenario of the specification: the device that holds "ABCDEF" has one
Set and `size = 6 ≤ 2 * 4`. -/
theorem reachable_one_set_witness :
    deviceABCDEF.qsets.length ≤ 1 ∧ (0 < deviceABCDEF.size → deviceABCDEF.qsets ≠ []) ∧
    (deviceABCDEF.size : Int) ≤ smallConfig.scull_quanta_count * smallConfig.scull_quantum_size :=
  reachable_one_set smallConfig (by decide) deviceABCDEF
    (reachableWith_deviceABCDEF _ _ (fun _ => rfl) (by decide) (by decide))

/-- C19 as stated fails: with the source's configuration and every allocation
succeeding, the write of one byte at offset `2 ^ 52` (Set index `2 ^ 32`, which the `int`
holds as 0) stores the byte in the head Set and leaves `size = 2 ^ 52 + 1`, above
`quanta_count * quantum_size = 1048576`. -/
theorem reachable_size_exceeds_set :
    ReachableWith defaultConfig (fun kmalloc => ∀ j, kmalloc j = true) (fun _ => True)
      { qsets := [{ quanta := some (some (65 :: List.replicate 1023 0)
                      :: List.replicate 1023 none) }], size := 4503599627370497 } ∧
    ¬ ((4503599627370497 : Int) ≤
        defaultConfig.scull_quanta_count * defaultConfig.scull_quantum_size) :=
  ⟨ReachableWith.write allocOk 0 emptyDevice [65] 1 4503599627370496
      { retval := 1, f_pos := 4503599627370497,
        dev := { qsets := [{ quanta := some (some (65 :: List.replicate 1023 0)
                      :: List.replicate 1023 none) }], size := 4503599627370497 },
        nalloc := 3 }
      ReachableWith.init (fun _ => rfl) trivial (by decide) (by decide) (by decide)
      (by decide!),
    by decide⟩

/-! ## Size and the allocated quanta -/

theorem set_keeps_allocated (l : List (Option (List Byte))) (b j : Nat) (x z : List Byte)
    (h : l.get? j = some (some z)) : ∃ y, (l.set b (some x)).get? j = some (some y) := by
  rw [List.get?_eq_getElem?] at h ⊢
  rw [List.getElem?_set]
  by_cases hbj : b = j
  · subst hbj
    have hlt : b < l.length := (List.getElem?_eq_some.mp h).1
    exact ⟨x, by simp [hlt]⟩
  · exact ⟨z, by simp [hbj, h]⟩

/-- A call of `scull_read` changes the device only through a walk that it makes for an
offset below `size`. -/
theorem scull_read_dev_lt (cfg : Config) (kmalloc : Nat → Bool) (n : Nat) (dev : scull_device)
    (buffer : List Byte) (count : Nat) (o : Int) (r : ReadResult)
    (h : scull_read cfg kmalloc n dev buffer count o = some r) :
    r.dev = dev ∨
    (toUInt64 o < dev.size ∧
      ∃ s b p fr, scull_find cfg o = some (s, b, p) ∧ scull_follow kmalloc n dev s = some fr ∧
        r.dev = fr.dev) := by
  by_cases h1 : dev.size ≤ toUInt64 o
  · unfold scull_read at h
    rw [if_pos h1, Option.some.injEq] at h
    subst h; exact Or.inl rfl
  · rcases scull_read_dev _ _ _ _ _ _ _ _ h with ⟨e, -⟩ | ⟨s, b, p, fr, hfind, hfr, e, -⟩
    · exact Or.inl e
    · exact Or.inr ⟨by omega, s, b, p, fr, hfind, hfr, e⟩

/-- For Set index 0 the walk leaves a chain that is not empty as it is. -/
theorem scull_follow_zero_dev (kmalloc : Nat → Bool) (n : Nat) (dev : scull_device)
    (fr : FollowResult) (hfr : scull_follow kmalloc n dev 0 = some fr)
    (hne : dev.qsets ≠ []) : fr.dev = dev := by
  have h := scull_follow_present kmalloc n dev 0 le_rfl (by decide)
    (by simpa using List.length_pos.mpr hne)
  rw [h, Option.some.injEq] at hfr
  rw [← hfr]

/-- C15, as amended: for a valid configuration, in every state reachable from the
zeroed device by `scull_write` calls at offsets inside the first Set
(`o < quanta_count * quantum_size`) and by `scull_read` and `scull_trim` calls, whatever
the allocator does, `size` is 0 or the head Set has an allocated quantum, in a slot
`j`, with `size ≤ (j + 1) * quantum_size`: `size` does not pass the end of the last
allocated quantum. -/
theorem size_within_allocated (cfg : Config) (hv : cfg.valid) (dev : scull_device)
    (h : ReachableWith cfg (fun _ => True)
      (fun o => o < cfg.scull_quanta_count * cfg.scull_quantum_size) dev) :
    dev.size = 0 ∨
    ∃ q quanta, ∃ j : Nat, ∃ quantum, dev.qsets.get? 0 = some q ∧ q.quanta = some quanta ∧
      quanta.get? j = some (some quantum) ∧
      (dev.size : Int) ≤ (j + 1) * cfg.scull_quantum_size := by
  induction h with
  | init => exact Or.inl rfl
  | write kmalloc n dev buffer count o r hprev _ hP h0 h63 hc hw ih =>
    have hQ : o < cfg.scull_quanta_count * cfg.scull_quantum_size := hP
    have hdiv := Int.ediv_eq_zero_of_lt h0 hQ
    have hs : o / (cfg.scull_quanta_count * cfg.scull_quantum_size) < 2 ^ 31 := by
      rw [hdiv]; decide
    obtain ⟨s, b, p, fr, hfind, hfr, hcase⟩ := scull_write_cases _ _ _ _ _ _ _ _ hw
    obtain ⟨es, -, eo, hb0, hb1, hp0, hp1⟩ := scull_find_no_wrap hv o h0 hs s b p hfind
    have hsz : s = 0 := by rw [es]; exact hdiv
    subst hsz
    have hfsz := scull_follow_size _ _ _ _ _ hfr
    have hne : ∀ q0, dev.qsets.get? 0 = some q0 → dev.qsets ≠ [] := by
      intro q0 g1 hnil
      rw [hnil] at g1
      exact absurd g1 (by simp)
    rcases hcase with ⟨-, e⟩ | ⟨i, q, slot, hi, hq, -, hslot, hcase2⟩
    · rcases ih with ih | ⟨q0, quanta0, j, quantum0, g1, g2, g3, g4⟩
      · left; rw [e, hfsz]; exact ih
      · right
        rw [e, scull_follow_zero_dev _ _ _ _ hfr (hne q0 g1)]
        exact ⟨q0, quanta0, j, quantum0, g1, g2, g3, g4⟩
    · obtain ⟨hi0, hil, -⟩ := scull_follow_qset _ _ _ _ _ _ hfr hi
      have hi00 : i = 0 := by rw [hi0]; decide
      subst hi00
      -- an allocated slot of the old head is a slot of the block array the write uses
      have hold : ∀ q0 quanta0 (j : Nat) quantum0, dev.qsets.get? 0 = some q0 →
          q0.quanta = some quanta0 → quanta0.get? j = some (some quantum0) →
          (quantaOf cfg q).get? j = some (some quantum0) := by
        intro q0 quanta0 j quantum0 g1 g2 g3
        rw [scull_follow_zero_dev _ _ _ _ hfr (hne q0 g1), g1, Option.some.injEq] at hq
        subst hq
        unfold quantaOf
        rw [g2]
        exact g3
      rcases hcase2 with ⟨-, -, e⟩ | ⟨-, hpl, data, e, hd⟩
      · rcases ih with ih | ⟨q0, quanta0, j, quantum0, g1, g2, g3, g4⟩
        · left
          rw [e]
          show fr.dev.size = 0
          rw [hfsz]; exact ih
        · right
          refine ⟨{ quanta := some (quantaOf cfg q) }, quantaOf cfg q, j, quantum0, ?_, rfl,
            hold q0 quanta0 j quantum0 g1 g2 g3, ?_⟩
          · rw [e]
            exact get?_set_self _ _ _ hil
          · rw [e]
            show ((fr.dev.size : Nat) : Int) ≤ _
            rw [hfsz]; exact g4
      · have hget0 : r.dev.qsets.get? 0 = some
            { quanta := some ((quantaOf cfg q).set b.toNat
                (some (storeBytes (quantumOf cfg slot) p.toNat data))) } := by
          rw [e]
          exact get?_set_self _ _ _ hil
        have hkeep : (∃ q0 quanta0, ∃ j : Nat, ∃ quantum0, dev.qsets.get? 0 = some q0 ∧
              q0.quanta = some quanta0 ∧ quanta0.get? j = some (some quantum0) ∧
              (dev.size : Int) ≤ (j + 1) * cfg.scull_quantum_size) →
            ∃ q1 quanta1, ∃ j : Nat, ∃ quantum1, r.dev.qsets.get? 0 = some q1 ∧
              q1.quanta = some quanta1 ∧ quanta1.get? j = some (some quantum1) ∧
              (dev.size : Int) ≤ (j + 1) * cfg.scull_quantum_size := by
          rintro ⟨q0, quanta0, j, quantum0, g1, g2, g3, g4⟩
          obtain ⟨y, hy⟩ := set_keeps_allocated (quantaOf cfg q) b.toNat j
            (storeBytes (quantumOf cfg slot) p.toNat data) quantum0
            (hold q0 quanta0 j quantum0 g1 g2 g3)
          exact ⟨_, _, j, y, hget0, rfl, hy, g4⟩
        rcases hd with ⟨-, -, -, e2⟩ | ⟨-, -, -, e2⟩
        · have hq31 := hv.quantum_lt
          have hQ31 := hv.2.2
          have hcl := clampToQuantum_valid hv p hp0 hp1 count
          have hu := toUInt64_toInt64 (o + clampToQuantum cfg p count) (by omega) (by omega)
          have hbn : ((b.toNat : Nat) : Int) = b := Int.toNat_of_nonneg hb0
          by_cases h5 : dev.size < toUInt64 (toInt64 (o + clampToQuantum cfg p count))
          · right
            rw [if_pos h5] at e2
            refine ⟨_, _, b.toNat, _, hget0, rfl,
              get?_set_self _ _ _ (get?_lt_length hslot), ?_⟩
            rw [e2, hu, hbn]
            have : (b + 1) * cfg.scull_quantum_size
                = b * cfg.scull_quantum_size + cfg.scull_quantum_size := by ring
            omega
          · rw [if_neg h5] at e2
            rcases ih with ih | ih
            · left; rw [e2]; exact ih
            · right
              rw [e2]
              exact hkeep ih
        · rcases ih with ih | ih
          · left; rw [e2]; exact ih
          · right
            rw [e2]
            exact hkeep ih
  | read kmalloc n dev buffer count o r hprev _ h0 h63 hc hr ih =>
    rcases scull_read_dev_lt _ _ _ _ _ _ _ _ hr with e | ⟨hlt, s, b, p, fr, hfind, hfr, e⟩
    · rw [e]; exact ih
    · have hu := toUInt64_eq o h0 (by omega)
      rcases ih with ih | ⟨q0, quanta0, j, quantum0, g1, g2, g3, g4⟩
      · omega
      · have hwf := hprev.reachable.wf
        have hwq := hwf.1 q0 (List.get?_mem g1)
        unfold wfQset at hwq
        rw [g2] at hwq
        have hj := get?_lt_length g3
        have hqc := hv.2.1
        have hjq : ((j : Int) + 1) * cfg.scull_quantum_size
            ≤ cfg.scull_quanta_count * cfg.scull_quantum_size :=
          Int.mul_le_mul_of_nonneg_right (by omega) (le_of_lt hv.1)
        have hQ : o < cfg.scull_quanta_count * cfg.scull_quantum_size := by omega
        have hdiv := Int.ediv_eq_zero_of_lt h0 hQ
        obtain ⟨es, -⟩ := scull_find_no_wrap hv o h0 (by rw [hdiv]; decide) s b p hfind
        have hsz : s = 0 := by rw [es]; exact hdiv
        subst hsz
        have hne : dev.qsets ≠ [] := by
          intro hnil
          rw [hnil] at g1
          exact absurd g1 (by simp)
        rw [e, scull_follow_zero_dev _ _ _ _ hfr hne]
        exact Or.inr ⟨q0, quanta0, j, quantum0, g1, g2, g3, g4⟩
  | trim dev t _ ht ih =>
    unfold scull_trim at ht
    split at ht
    · exact absurd ht (by simp)
    · simp only [Option.some.injEq] at ht
      subst ht
      exact Or.inl rfl

/-- C15, at the scenario of the specification: in the device that holds "ABCDEF",
`size = 6` is within the end of an allocated quantum of the head Set. -/
theorem size_within_allocated_witness :
    deviceABCDEF.size = 0 ∨
    ∃ q quanta, ∃ j : Nat, ∃ quantum, deviceABCDEF.qsets.get? 0 = some q ∧
      q.quanta = some quanta ∧ quanta.get? j = some (some quantum) ∧
      (deviceABCDEF.size : Int) ≤ (j + 1) * smallConfig.scull_quantum_size :=
  size_within_allocated smallConfig (by decide) deviceABCDEF
    (reachableWith_deviceABCDEF _ _ trivial (by decide) (by decide))

/-- C15 as stated fails: with the source's configuration, after the write of one byte
at offset 1100 into the zeroed device one quantum is allocated (slot 1 of the head
Set) and `size = 1101`, above `1 * 1024`. -/
theorem size_exceeds_block_count :
    Reachable defaultConfig
      { qsets := [{ quanta := some (none :: some (List.replicate 76 0 ++ 65
                      :: List.replicate 947 0) :: List.replicate 1022 none) }],
        size := 1101 } ∧
    blockCount
      { qsets := [{ quanta := some (none :: some (List.replicate 76 0 ++ 65
                      :: List.replicate 947 0) :: List.replicate 1022 none) }],
        size := 1101 } = 1 ∧
    ¬ (1101 ≤ 1 * defaultConfig.scull_quantum_size) :=
  ⟨Reachable.write allocOk 0 emptyDevice [65] 1 1100
      { retval := 1, f_pos := 1101,
        dev := { qsets := [{ quanta := some (none :: some (List.replicate 76 0 ++ 65
                      :: List.replicate 947 0) :: List.replicate 1022 none) }],
                 size := 1101 },
        nalloc := 3 }
      Reachable.init (by decide) (by decide) (by decide) (by decide!),
    by decide!, by decide⟩

/-! ## Bytes that were not written -/

theorem zeroOutside_mono {cfg : Config} {W W1 : Int → Prop} {dev : scull_device}
    (hW : ∀ x, W x → W1 x) (h : zeroOutside cfg W dev) : zeroOutside cfg W1 dev :=
  fun i q quanta j quantum k v g1 g2 g3 g4 g5 => hW _ (h i q quanta j quantum k v g1 g2 g3 g4 g5)

theorem zeroOutside_zeroQset (cfg : Config) (W : Int → Prop) (size : Nat) :
    zeroOutside cfg W { qsets := [zeroQset], size := size } := by
  intro i q quanta j quantum k v g1 g2 g3 g4 g5
  have hq : q = zeroQset := by
    cases i with
    | zero => simpa using g1.symm
    | succ i => simp at g1
  rw [hq] at g2
  exact absurd g2 (by simp [zeroQset])

theorem zeroOutside_nil (cfg : Config) (W : Int → Prop) (size : Nat) :
    zeroOutside cfg W { qsets := [], size := size } := by
  intro i q quanta j quantum k v g1
  exact absurd g1 (by simp)

theorem zeroOutside_follow {cfg : Config} {W : Int → Prop} {dev : scull_device}
    (h : zeroOutside cfg W dev) (kmalloc : Nat → Bool) (n : Nat) (s : Int) (fr : FollowResult)
    (hfr : scull_follow kmalloc n dev s = some fr) : zeroOutside cfg W fr.dev := by
  rcases scull_follow_dev _ _ _ _ _ hfr with e | e | e <;> rw [e]
  · exact h
  · exact zeroOutside_zeroQset cfg W _
  · exact zeroOutside_nil cfg W _

theorem quantaOf_allocated {cfg : Config} {q : scull_qset} {j : Nat} {quantum : List Byte}
    (h : (quantaOf cfg q).get? j = some (some quantum)) :
    ∃ quanta0, q.quanta = some quanta0 ∧ quanta0.get? j = some (some quantum) := by
  unfold quantaOf at h
  split at h
  · rename_i quanta0 hq
    exact ⟨quanta0, hq, h⟩
  · rw [List.get?_eq_getElem?, List.getElem?_replicate] at h
    split_ifs at h
    exact absurd h (by simp)

theorem quantumOf_nonzero {cfg : Config} {slot : Option (List Byte)} {k : Nat} {v : Byte}
    (h : (quantumOf cfg slot).get? k = some v) (hv : v ≠ 0) :
    ∃ quantum0, slot = some quantum0 ∧ quantum0.get? k = some v := by
  unfold quantumOf at h
  split at h
  · rename_i quantum0
    exact ⟨quantum0, rfl, h⟩
  · rw [List.get?_eq_getElem?, List.getElem?_replicate] at h
    split_ifs at h
    simp only [Option.some.injEq] at h
    exact absurd h.symm hv

/-- A byte of a quantum after a copy is a byte it had, or a byte of the data. -/
theorem storeBytes_get? (quantum : List Byte) (p : Nat) (data : List Byte) (k : Nat)
    (v : Byte) (hp : p ≤ quantum.length)
    (h : (storeBytes quantum p data).get? k = some v) :
    quantum.get? k = some v ∨ (p ≤ k ∧ k < p + data.length) := by
  by_cases hk : p ≤ k ∧ k < p + data.length
  · exact Or.inr hk
  · left
    unfold storeBytes at h
    rw [List.get?_eq_getElem?] at h ⊢
    have hl : (quantum.take p).length = p := by rw [List.length_take]; omega
    by_cases hk1 : k < p
    · rw [List.append_assoc, List.getElem?_append_left (by omega),
        List.getElem?_take_of_lt hk1] at h
      exact h
    · rw [List.getElem?_append_right (by rw [List.length_append, hl]; omega),
        List.getElem?_drop, List.length_append, hl] at h
      have : p + data.length + (k - (p + data.length)) = k := by omega
      rw [this] at h
      exact h

theorem bytesStored_count (r : WriteResult) (buffer : List Byte) (c : Nat)
    (h : r.retval = c) : bytesStored r buffer = c := by
  unfold bytesStored
  rw [h, if_pos (by omega)]
  omega

theorem bytesStored_efault (r : WriteResult) (buffer : List Byte)
    (h : r.retval = -EFAULT) : bytesStored r buffer = buffer.length := by
  unfold bytesStored
  rw [h, if_neg (by decide), if_pos rfl]

/-- The bytes of a device in which one Set got a new block array. -/
theorem zeroOutside_set {cfg : Config} {W : Int → Prop} {dev dev1 : scull_device} (i : Nat)
    (quanta1 : List (Option (List Byte))) (h : zeroOutside cfg W dev)
    (hdev : dev1.qsets = dev.qsets.set i { quanta := some quanta1 })
    (hnew : ∀ (j : Nat) (quantum : List Byte) (k : Nat) (v : Byte),
      quanta1.get? j = some (some quantum) → quantum.get? k = some v → v ≠ 0 →
      W (i * (cfg.scull_quanta_count * cfg.scull_quantum_size)
          + j * cfg.scull_quantum_size + k)) :
    zeroOutside cfg W dev1 := by
  intro i1 q quanta j quantum k v g1 g2 g3 g4 g5
  rw [hdev, List.get?_eq_getElem?, List.getElem?_set] at g1
  by_cases hi : i = i1
  · subst hi
    rw [if_pos rfl] at g1
    split_ifs at g1
    simp only [Option.some.injEq] at g1
    subst g1
    simp only [Option.some.injEq] at g2
    subst g2
    exact hnew j quantum k v g3 g4 g5
  · rw [if_neg hi, ← List.get?_eq_getElem?] at g1
    exact h i1 q quanta j quantum k v g1 g2 g3 g4 g5

/-- A write at an offset whose Set index is below `2 ^ 31` leaves non-zero bytes only
where there were some and at the offsets of the bytes it has stored. -/
theorem zeroOutside_write {cfg : Config} (hv : cfg.valid) {W : Int → Prop}
    {dev : scull_device} (h : zeroOutside cfg W dev) (kmalloc : Nat → Bool) (n : Nat)
    (buffer : List Byte) (count : Nat) (o : Int) (h0 : 0 ≤ o)
    (hs : o / (cfg.scull_quanta_count * cfg.scull_quantum_size) < 2 ^ 31) (r : WriteResult)
    (hw : scull_write cfg kmalloc n dev buffer count o = some r) :
    zeroOutside cfg (fun x => W x ∨ (o ≤ x ∧ x < o + bytesStored r buffer)) r.dev := by
  obtain ⟨s, b, p, fr, hfind, hfr, hcase⟩ := scull_write_cases _ _ _ _ _ _ _ _ hw
  obtain ⟨es, hs0, eo, hb0, hb1, hp0, hp1⟩ := scull_find_no_wrap hv o h0 hs s b p hfind
  have hfz : zeroOutside cfg (fun x => W x ∨ (o ≤ x ∧ x < o + bytesStored r buffer)) fr.dev :=
    zeroOutside_mono (fun x hx => Or.inl hx) (zeroOutside_follow h _ _ _ _ hfr)
  rcases hcase with ⟨-, e⟩ | ⟨i, q, slot, hi, hq, -, hslot, hcase2⟩
  · rw [e]; exact hfz
  · obtain ⟨hi0, -, -⟩ := scull_follow_qset _ _ _ _ _ _ hfr hi
    have hi1 : (i : Int) = s := by
      rw [hi0, toUInt32_eq s hs0 (by omega)]
      exact Int.toNat_of_nonneg hs0
    have hbn : ((b.toNat : Nat) : Int) = b := Int.toNat_of_nonneg hb0
    have hpn : ((p.toNat : Nat) : Int) = p := Int.toNat_of_nonneg hp0
    -- what was in the block array that the write uses
    have hold : ∀ (j : Nat) (quantum : List Byte) (k : Nat) (v : Byte),
        (quantaOf cfg q).get? j = some (some quantum) → quantum.get? k = some v → v ≠ 0 →
        W (i * (cfg.scull_quanta_count * cfg.scull_quantum_size)
            + j * cfg.scull_quantum_size + k)
          ∨ (o ≤ i * (cfg.scull_quanta_count * cfg.scull_quantum_size)
                + j * cfg.scull_quantum_size + k ∧
             i * (cfg.scull_quanta_count * cfg.scull_quantum_size)
                + j * cfg.scull_quantum_size + k < o + bytesStored r buffer) := by
      intro j quantum k v g3 g4 g5
      obtain ⟨quanta0, hq0, hj0⟩ := quantaOf_allocated g3
      exact hfz i q quanta0 j quantum k v hq hq0 hj0 g4 g5
    rcases hcase2 with ⟨-, -, e⟩ | ⟨-, hpl, data, e, hd⟩
    · refine zeroOutside_set i (quantaOf cfg q) hfz ?_ hold
      rw [e]; rfl
    · have hstored : bytesStored r buffer = data.length := by
        rcases hd with ⟨e1, e2, e3, -⟩ | ⟨e1, e2, -, -⟩
        · rw [bytesStored_count r buffer _ e1, e2, List.length_take]
          omega
        · rw [bytesStored_efault r buffer e1, e2]
      have hdl : data.length ≤ clampToQuantum cfg p count := by
        rcases hd with ⟨-, e2, -, -⟩ | ⟨-, e2, e3, -⟩
        · rw [e2, List.length_take]; omega
        · rw [e2]; omega
      refine zeroOutside_set i _ hfz e ?_
      intro j quantum k v g3 g4 g5
      rw [List.get?_eq_getElem?, List.getElem?_set] at g3
      by_cases hbj : b.toNat = j
      · subst hbj
        rw [if_pos rfl] at g3
        split_ifs at g3
        simp only [Option.some.injEq] at g3
        subst g3
        rcases storeBytes_get? _ _ _ _ _ (by omega) g4 with g | ⟨g1, g2⟩
        · obtain ⟨quantum0, hs0, hk0⟩ := quantumOf_nonzero g g5
          rw [hs0] at hslot
          exact hold _ quantum0 k v hslot hk0 g5
        · right
          rw [hi1, hbn, hstored]
          constructor <;> omega
      · rw [if_neg hbj, ← List.get?_eq_getElem?] at g3
        exact hold j quantum k v g3 g4 g5

/-- In every state of `Written`, every byte of the device that is not zero is at an
offset at which a byte was stored since the last `scull_trim`. -/
theorem Written.zeroOutside {cfg : Config} (hv : cfg.valid) {dev : scull_device}
    {W : Int → Prop} (h : Written cfg dev W) : zeroOutside cfg W dev := by
  induction h with
  | init => exact zeroOutside_nil cfg _ _
  | write kmalloc n dev W buffer count o r _ hs h0 _ _ hw ih =>
    exact zeroOutside_write hv ih kmalloc n buffer count o h0 hs r hw
  | read kmalloc n dev W buffer count o r _ _ _ _ hr ih =>
    rcases scull_read_dev _ _ _ _ _ _ _ _ hr with ⟨e, -⟩ | ⟨s, b, p, fr, -, hfr, e, -⟩
    · rw [e]; exact ih
    · rw [e]; exact zeroOutside_follow ih _ _ _ _ hfr
  | trim dev W t _ ht _ =>
    unfold scull_trim at ht
    split at ht
    · exact absurd ht (by simp)
    · simp only [Option.some.injEq] at ht
      subst ht
      exact zeroOutside_nil cfg _ _

/-- C13, as amended: for a valid configuration, in every state reached from the zeroed
device by `scull_write` calls at offsets whose Set index is below `2 ^ 31` and by
`scull_read` and `scull_trim` calls, `W` being the offsets at which bytes were stored
since the last `scull_trim`: of the bytes that a `scull_read` at such an offset `o`
returns, the byte `t` (the byte of offset `o + t`) is 0 when `o + t` is not in `W`. -/
theorem scull_read_unwritten_zero (cfg : Config) (hv : cfg.valid) (dev : scull_device)
    (W : Int → Prop) (h : Written cfg dev W) (kmalloc : Nat → Bool) (n : Nat)
    (buffer : List Byte) (count : Nat) (o : Int) (h0 : 0 ≤ o)
    (hs : o / (cfg.scull_quanta_count * cfg.scull_quantum_size) < 2 ^ 31) (r : ReadResult)
    (hr : scull_read cfg kmalloc n dev buffer count o = some r) (t : Nat)
    (ht : (t : Int) < r.retval) (hW : ¬ W (o + t)) : r.buffer.get? t = some 0 := by
  rcases scull_read_cases _ _ _ _ _ _ _ _ hr with hle |
    ⟨s, b, p, fr, i, q, quanta, quantum, c, -, hfind, hfr, hi, hq, hquanta, hb0, hquantum,
      hret, hp0, hpl, -, hbuf⟩
  · omega
  · obtain ⟨es, hs0, eo, -, -, -, -⟩ := scull_find_no_wrap hv o h0 hs s b p hfind
    obtain ⟨hi0, -, -⟩ := scull_follow_qset _ _ _ _ _ _ hfr hi
    have hi1 : (i : Int) = s := by
      rw [hi0, toUInt32_eq s hs0 (by omega)]
      exact Int.toNat_of_nonneg hs0
    have hbn : ((b.toNat : Nat) : Int) = b := Int.toNat_of_nonneg hb0
    have hpn : ((p.toNat : Nat) : Int) = p := Int.toNat_of_nonneg hp0
    have htc : t < c := by omega
    have hz := zeroOutside_follow (h.zeroOutside hv) _ _ _ _ hfr
    have hlt : p.toNat + t < quantum.length := by omega
    have hget : r.buffer.get? t = quantum.get? (p.toNat + t) := by
      rw [hbuf, List.get?_eq_getElem?, List.get?_eq_getElem?,
        List.getElem?_append_left (by rw [List.length_take, List.length_drop]; omega),
        List.getElem?_take_of_lt htc, List.getElem?_drop]
    rw [hget, List.get?_eq_get hlt]
    by_contra hne
    have hv0 : quantum.get ⟨p.toNat + t, hlt⟩ ≠ 0 := fun h1 => hne (by rw [h1])
    have hw := hz i q quanta b.toNat quantum (p.toNat + t) _ hq hquanta hquantum
      (List.get?_eq_get hlt) hv0
    have key : (i : Int) * (cfg.scull_quanta_count * cfg.scull_quantum_size)
        + (b.toNat : Nat) * cfg.scull_quantum_size + ((p.toNat + t : Nat) : Int) = o + t := by
      rw [hi1, hbn]
      push_cast
      rw [hpn]
      omega
    rw [key] at hw
    exact hW hw

/-- C13, at the example of the claim: quanta of 1024 bytes, 1 per Set; after one byte
was written at offset 1000, reading 1 byte at offset 0 returns one byte, and it is 0. -/
theorem scull_read_unwritten_zero_witness :
    scull_read { scull_quantum_size := 1024, scull_quanta_count := 1 } allocOk 3
      { qsets := [{ quanta := some [some (List.replicate 1000 0 ++ 65
                      :: List.replicate 23 0)] }], size := 1001 } [7] 1 0 =
      some { retval := 1, buffer := [0], f_pos := 1,
             dev := { qsets := [{ quanta := some [some (List.replicate 1000 0 ++ 65
                      :: List.replicate 23 0)] }], size := 1001 },
             nalloc := 3 } ∧
    ([0] : List Byte).get? 0 = some 0 :=
  ⟨by decide!,
    scull_read_unwritten_zero { scull_quantum_size := 1024, scull_quanta_count := 1 }
      (by decide)
      { qsets := [{ quanta := some [some (List.replicate 1000 0 ++ 65
                      :: List.replicate 23 0)] }], size := 1001 }
      _
      (Written.write allocOk 0 emptyDevice (fun _ => False) [65] 1 1000
        { retval := 1, f_pos := 1001,
          dev := { qsets := [{ quanta := some [some (List.replicate 1000 0 ++ 65
                      :: List.replicate 23 0)] }], size := 1001 },
          nalloc := 3 }
        Written.init (by decide) (by decide) (by decide) (by decide) (by decide!))
      allocOk 3 [7] 1 0 (by decide) (by decide)
      { retval := 1, buffer := [0], f_pos := 1,
        dev := { qsets := [{ quanta := some [some (List.replicate 1000 0 ++ 65
                      :: List.replicate 23 0)] }], size := 1001 },
        nalloc := 3 }
      (by decide!) 0 (by decide) (by decide)⟩

/-- C13 as stated fails: with the source's configuration, after the one byte 65 was
written at offset `2 ^ 52` (Set index `2 ^ 32`, which the `int` holds as 0) into the
zeroed device, reading 1 byte at offset 0, where nothing was written, returns the
byte 65. -/
theorem scull_read_aliased_byte :
    ((scull_write defaultConfig allocOk 0 emptyDevice [65] 1 4503599627370496).bind
        (fun w => scull_read defaultConfig allocOk w.nalloc w.dev [0] 1 0)).map
        (fun r => (r.retval, r.buffer)) = some (1, [65]) ∧
    (scull_write defaultConfig allocOk 0 emptyDevice [65] 1 4503599627370496).map
        (fun w => (w.retval, w.f_pos)) = some (1, 4503599627370497) ∧
    ¬ ((4503599627370496 : Int) ≤ 0 ∧ (0 : Int) < 4503599627370497) ∧
    (65 : Byte) ≠ 0 := by
  decide!

end Scull
